import Mathlib

/-!
Verification of the projectchimera loop controller, checklist store, workspace
sandbox and context guard against their natural-language specification.

The Python sources are shallowly embedded:
* strings are `List Char` (`chars` converts a Lean string literal);
* Python `str.count` / `in` / `str.replace(old, new, 1)` / `strip` / `split("\n")`
  are re-implemented as executable functions on `List Char`;
* the floating-point arithmetic of `ContextGuard` is modelled by an
  executable IEEE-754 binary64 (double precision, round-to-nearest-even)
  implementation on scaled integers (`F64`), with Python `int(...)`
  truncation as `pythonIntF`;
* methods that raise exceptions are modelled with `Option` / explicit outcome
  structures;
* the LLM gateway is an oracle: a list of pre-scripted responses consumed in
  order, with an exhausted script standing for a gateway exception.
-/

/-- Convert a Lean string literal to the `List Char` representation used by the
embedding of the Python sources. -/
def chars (s : String) : List Char := s.data

/-- Characters matched by Python `str.strip()` / regex `\s` (no Unicode cases
arise in the documents the tools handle). -/
def pySpace (c : Char) : Bool :=
  c = ' ' ∨ c = '\t' ∨ c = '\n' ∨ c = '\x0d' ∨ c = '\x0b' ∨ c = '\x0c'

/-- Decide whether `p` is a prefix of `s` (Python `str.startswith`). -/
def leadsWith (p s : List Char) : Bool :=
  match p, s with
  | [], _ => true
  | _ :: _, [] => false
  | a :: p', b :: s' => a == b && leadsWith p' s'

/-- Decide whether `p` occurs as a contiguous substring of `s`
(Python `p in s`). -/
def containsSub (s p : List Char) : Bool :=
  match s with
  | [] => leadsWith p []
  | _ :: s' => leadsWith p s || containsSub s' p

/-- Number of non-overlapping occurrences of a nonempty pattern `p` in `s`,
scanning left to right (Python `str.count`). -/
def countSub (s p : List Char) : Nat :=
  match p with
  | [] => s.length + 1
  | a :: p' =>
    match s with
    | [] => 0
    | c :: s' =>
      if leadsWith (a :: p') (c :: s') then
        1 + countSub ((c :: s').drop (a :: p').length) (a :: p')
      else
        countSub s' (a :: p')
termination_by s.length
decreasing_by
  · simp only [List.length_drop, List.length_cons]
    omega
  · simp

/-- Replace the first occurrence of nonempty `old` in `s` by `new`
(Python `str.replace(old, new, 1)`). -/
def replaceFirst (s old new : List Char) : List Char :=
  match s with
  | [] => []
  | c :: s' =>
    if leadsWith old s then new ++ s.drop old.length
    else c :: replaceFirst s' old new

/-- Python `str.lstrip()`. -/
def pyLstrip (s : List Char) : List Char := s.dropWhile pySpace

/-- Python `str.rstrip()`. -/
def pyRstrip (s : List Char) : List Char := (s.reverse.dropWhile pySpace).reverse

/-- Python `str.strip()`. -/
def pyStrip (s : List Char) : List Char := pyRstrip (pyLstrip s)

/-- Python `content.split("\n")`. -/
def splitLines (s : List Char) : List (List Char) :=
  match s with
  | [] => [[]]
  | c :: s' =>
    if c = '\n' then [] :: splitLines s'
    else
      match splitLines s' with
      | [] => [[c]]
      | l :: ls => (c :: l) :: ls

/-- Python `"\n".join(lines)`. -/
def joinLines : List (List Char) → List Char
  | [] => []
  | [l] => l
  | l :: ls => l ++ '\n' :: joinLines ls

/-! ## IEEE-754 binary64 model

Python floats are double-precision binary floating-point numbers.  A value is
represented here as `m * 2^e` with an integer significand `m` of at most 53
bits after each rounding; every operation computes the exact result and
rounds it to 53 significant bits with round-to-nearest, ties-to-even — the
IEEE-754 rule Python follows.  Exponent overflow and subnormals are outside
the range any claim exercises and are not modelled. -/

structure F64 where
  m : Int
  e : Int
deriving Repr, DecidableEq

/-- Number of bits of `n` (fuel-driven so the kernel can evaluate it). -/
def bitLen : Nat → Nat → Nat
  | 0, _ => 0
  | f + 1, n => if n = 0 then 0 else bitLen f (n / 2) + 1

/-- Round `(a + ε) / 2^d` to the nearest integer with ties to even, where
`sticky` says whether discarded lower bits `ε > 0` exist below `a`. -/
def roundSigRTE (a d : Nat) (sticky : Bool) : Nat :=
  if d = 0 then a
  else
    let q := a / 2 ^ d
    let r := a % 2 ^ d
    let half := 2 ^ (d - 1)
    if half < r then q + 1
    else if r < half then q
    else if sticky then q + 1
    else if q % 2 = 0 then q else q + 1

/-- Round the exact value `m * 2^e` to a 53-bit significand. -/
def roundF (m : Int) (e : Int) : F64 :=
  let a := m.natAbs
  let L := bitLen 1100 a
  if L ≤ 53 then ⟨m, e⟩
  else
    let d := L - 53
    let a2 := roundSigRTE a d false
    ⟨if m < 0 then -(a2 : Int) else (a2 : Int), e + d⟩

/-- Conversion of a Python `int` to a float (rounds once). -/
def intToF (n : Int) : F64 := roundF n 0

/-- Double-precision multiplication: exact product, one rounding. -/
def fmulF (x y : F64) : F64 := roundF (x.m * y.m) (x.e + y.e)

/-- Double-precision (and Python `int / int` true) division: correctly
rounded quotient.  The numerator is scaled so the integer quotient carries
at least 54 bits, then rounded with the remainder as the sticky bit. -/
def fdivF (x y : F64) : F64 :=
  let a := x.m.natAbs
  let b := y.m.natAbs
  if b = 0 then ⟨0, 0⟩
  else if a = 0 then ⟨0, 0⟩
  else
    let la := bitLen 1100 a
    let lb := bitLen 1100 b
    let s : Nat := 54 + lb - la
    let A := a * 2 ^ s
    let Q := A / b
    let R := A % b
    let L := bitLen 1100 Q
    let d := L - 53
    let q2 := roundSigRTE Q d (decide (R ≠ 0))
    let sgn : Int := if (x.m < 0) = (y.m < 0) then 1 else -1
    ⟨sgn * (q2 : Int), x.e - y.e - (s : Int) + (d : Int)⟩

/-- Python `int(x)` for a float: truncation toward zero. -/
def pythonIntF (x : F64) : Int :=
  if 0 ≤ x.e then x.m * ((2 ^ x.e.toNat : Nat) : Int)
  else Int.tdiv x.m ((2 ^ (-x.e).toNat : Nat) : Int)

/-! ## Context Guard (src/core/context_guard.py)

`ContextGuard.__init__` stores `threshold_percentage`, `max_context`,
`threshold_tokens = int(max_context * (threshold_percentage / 100.0))` and
`current_tokens = 0`.  The numeric expression is evaluated in the binary64
model: the percentage is the double passed by the caller, `100.0` and the
promoted `max_context` are converted, and each operation rounds once, exactly
as CPython does. -/

structure ContextGuard where
  threshold_percentage : F64
  max_context : Nat
  threshold_tokens : Int
  current_tokens : Int
deriving Repr, DecidableEq

namespace ContextGuard

/-- `ContextGuard.__init__(threshold_percentage, max_context)`. -/
def init (threshold_percentage : F64) (max_context : Nat) : ContextGuard :=
  { threshold_percentage := threshold_percentage
    max_context := max_context
    threshold_tokens :=
      pythonIntF (fmulF (intToF max_context) (fdivF threshold_percentage (intToF 100)))
    current_tokens := 0 }

/-- `add_tokens(self, token_count)`. -/
def add_tokens (g : ContextGuard) (token_count : Int) : ContextGuard :=
  { g with current_tokens := g.current_tokens + token_count }

/-- `should_rotate(self)`. -/
def should_rotate (g : ContextGuard) : Bool :=
  g.threshold_tokens ≤ g.current_tokens

/-- `reset(self)`. -/
def reset (g : ContextGuard) : ContextGuard :=
  { g with current_tokens := 0 }

end ContextGuard

/-! ## Workspace Sandbox path resolution (src/core/tools.py `Tools._resolve_path`,
src/core/nemo_tools.py `RalphTools._resolve_path`)

A filesystem path is modelled as its list of components below the filesystem
root (no symlinks are modelled).  `(self.workspace_dir / path).resolve()` is
component-wise resolution with `..` popping one component and `.` skipped;
`str(resolved)` is `renderPath`; the security check is the literal
`str(resolved).startswith(str(self.workspace_dir))` string-prefix test. -/

/-- Render an absolute path from its components (Python `str(Path)`). -/
def renderPath (cs : List (List Char)) : List Char :=
  match cs with
  | [] => chars "/"
  | _ => cs.flatMap (fun c => '/' :: c)

/-- Resolve relative components against a base: `..` pops, `.` is skipped. -/
def resolveComponents (base : List (List Char)) : List (List Char) → List (List Char)
  | [] => base
  | c :: rest =>
    if c = chars ".." then resolveComponents base.dropLast rest
    else if c = chars "." then resolveComponents base rest
    else resolveComponents (base ++ [c]) rest

/-- `Tools._resolve_path` / `RalphTools._resolve_path`: resolve, then raise
`ValueError` (modelled `none`) unless the rendered resolved path starts with
the rendered workspace root. -/
def resolve_path (workspace_dir : List (List Char)) (path : List (List Char)) :
    Option (List (List Char)) :=
  let resolved := resolveComponents workspace_dir path
  if leadsWith (renderPath workspace_dir) (renderPath resolved) then some resolved
  else none

/-- A resolved path lies under the workspace root iff the root's components
are an initial segment of its components. -/
def underRoot (workspace_dir resolved : List (List Char)) : Bool :=
  resolved.take workspace_dir.length = workspace_dir

/-! ## Structured editor (src/core/tools.py `Tools.str_replace_editor`,
src/core/nemo_tools.py `RalphTools.str_replace_editor`; both bodies are
identical).  The filesystem is abstracted to whether the target path exists
and its current content; the returned message and the written content (if
any) are modelled exactly. -/

/-- Message and write effect of one `str_replace_editor` call: `write = some c`
means the file at `path` now holds `c`; `none` means the filesystem is
untouched. -/
structure EditorResult where
  message : List Char
  write : Option (List Char)
deriving Repr, DecidableEq

/-- Message for `old_str` occurring zero times. -/
def notFoundMsg (path : List Char) : List Char :=
  chars "Error: old_str not found in " ++ path ++ chars ". Make sure to copy the exact text."

/-- Message for `old_str` occurring `count > 1` times. -/
def appearsMsg (count : Nat) (path : List Char) : List Char :=
  chars "Error: old_str appears " ++ (Nat.repr count).data ++
    chars " times in " ++ path ++ chars ". Make it more specific to match exactly once."

/-- `str_replace_editor(command, path, old_str, new_str)`.  `fileExists` and
`content` describe the file currently at the resolved `path`. -/
def str_replace_editor (command path : List Char) (fileExists : Bool)
    (content : List Char) (old_str new_str : Option (List Char)) : EditorResult :=
  if command = chars "create" then
    if fileExists then
      ⟨chars "Error: File already exists: " ++ path ++ chars ". Use str_replace to modify it.", none⟩
    else
      ⟨chars "File created: " ++ path, some (new_str.getD [])⟩
  else if command = chars "str_replace" then
    if ¬ fileExists then
      ⟨chars "Error: File not found: " ++ path ++ chars ". Use create command for new files.", none⟩
    else if old_str.getD [] = [] then
      ⟨chars "Error: old_str is required for str_replace command", none⟩
    else
      let old := old_str.getD []
      if ¬ containsSub content old then
        ⟨notFoundMsg path, none⟩
      else
        let count := countSub content old
        if 1 < count then
          ⟨appearsMsg count path, none⟩
        else
          let newv := new_str.getD []
          ⟨chars "File edited: " ++ path ++ chars " (replaced " ++ (Nat.repr old.length).data ++
             chars " chars with " ++ (Nat.repr newv.length).data ++ chars " chars)",
           some (replaceFirst content old newv)⟩
  else
    ⟨chars "Error: Unknown command '" ++ command ++ chars "'. Available: 'str_replace', 'create'", none⟩

/-! ## Checklist Store (src/core/tools.py `Tools.parse_checklist`,
`Tools.update_checklist`, `Tools.check_all_tasks_complete`;
src/agents/nemo_worker.py `NeMoWorkerAgent._all_tasks_complete`;
src/core/nemo_tools.py `RalphTools.update_checklist`)

The frontmatter `status` field of `parse_checklist` is not modelled: no claim
refers to it and it influences neither the phases, the next task, nor
completion. -/

/-- One parsed task: the dict built at src/core/tools.py:242. -/
structure TaskItem where
  description : List Char
  is_complete : Bool
  indent : Nat
  line_number : Nat
deriving Repr, DecidableEq

/-- One parsed phase: the dict built at src/core/tools.py:224. -/
structure Phase where
  number : Nat
  name : List Char
  description : List Char
  tasks : List TaskItem
deriving Repr, DecidableEq

/-- The `next_task` dict built at src/core/tools.py:258. -/
structure NextTask where
  phase : List Char
  description : List Char
  line_number : Nat
deriving Repr, DecidableEq

/-- Model of the regex fragment `\s+(.+)` matched against the remainder of a
line (which contains no newline): at least one leading whitespace character
must be present and at least one character must be left for the greedy `(.+)`
group, which backtracking gives every character after the shortest possible
nonempty whitespace run that still leaves the rest nonempty. -/
def wsThenRest (rest : List Char) : Option (List Char) :=
  let w := rest.takeWhile pySpace
  if w.isEmpty then none
  else if w.length = rest.length then
    if 2 ≤ rest.length then some (rest.drop (rest.length - 1)) else none
  else some (rest.drop w.length)

/-- Model of `re.match(r"^(\s*)- \[([ x])\]\s+(.+)", line)`
(src/core/tools.py:236): returns `(indent, is_complete, description)`. -/
def matchTaskLine (line : List Char) : Option (Nat × Bool × List Char) :=
  let ws := line.takeWhile pySpace
  let r0 := line.drop ws.length
  if leadsWith (chars "- [") r0 then
    match r0.drop 3 with
    | [] => none
    | c :: r1 =>
      if (c = ' ' ∨ c = 'x') ∧ leadsWith (chars "]") r1 then
        (wsThenRest (r1.drop 1)).map fun d => (ws.length, c = 'x', d)
      else none
  else none

/-- The guard at src/core/tools.py:235: `line.strip().startswith("- [")`. -/
def isTaskGate (line : List Char) : Bool :=
  leadsWith (chars "- [") (pyStrip line)

/-- Digits of `\d+` interpreted by Python `int(...)`. -/
def natOfDigits (ds : List Char) : Nat :=
  ds.foldl (fun acc c => acc * 10 + (c.toNat - '0'.toNat)) 0

/-- Model of `re.match(r"###\s+Phase\s+(\d+):\s+(.+)", line)`
(src/core/tools.py:222): returns `(number, name)`. -/
def matchPhaseHeader (line : List Char) : Option (Nat × List Char) :=
  if leadsWith (chars "###") line then
    let r1 := line.drop 3
    let w1 := r1.takeWhile pySpace
    if w1.isEmpty then none
    else
      let r2 := r1.drop w1.length
      if leadsWith (chars "Phase") r2 then
        let r3 := r2.drop 5
        let w2 := r3.takeWhile pySpace
        if w2.isEmpty then none
        else
          let r4 := r3.drop w2.length
          let ds := r4.takeWhile Char.isDigit
          if ds.isEmpty then none
          else
            let r5 := r4.drop ds.length
            if leadsWith (chars ":") r5 then
              (wsThenRest (r5.drop 1)).map fun name => (natOfDigits ds, name)
            else none
      else none
  else none

/-- The guard at src/core/tools.py:219: `line.startswith("### Phase")`. -/
def isHeaderGate (line : List Char) : Bool :=
  leadsWith (chars "### Phase") line

/-- A line that both passes the header guard and matches the header regex. -/
def isGoodHeader (line : List Char) : Bool :=
  isHeaderGate line && (matchPhaseHeader line).isSome

/-- State of the parsing loop of `parse_checklist`.  `cur = some (p, k)`
models the mutable dict `current_phase = p`, where `k` counts how many times
that same dict object has already been appended to `phases` by header lines
whose regex failed to match (such an append aliases the dict, so later task
appends and the final append are visible in every copy; the copies are
materialised when the dict is frozen). -/
structure ParseState where
  done : List Phase
  cur : Option (Phase × Nat)
deriving Repr, DecidableEq

/-- Materialise the pending aliased appends of the current phase dict:
`k` appends by regex-failing header lines plus one more append. -/
def appendCur : Option (Phase × Nat) → List Phase
  | none => []
  | some (p, k) => List.replicate (k + 1) p

/-- The line scan of `parse_checklist` (src/core/tools.py:216-248), carrying
the enumeration index `i` for `line_number` and one line of lookahead for the
`>`-description of a freshly opened phase. -/
def parseLoop : List (List Char) → Nat → ParseState → ParseState
  | [], _, st => st
  | line :: rest, i, st =>
    if isHeaderGate line then
      match matchPhaseHeader line with
      | some (num, name) =>
        let desc : List Char :=
          match rest with
          | nxt :: _ => if leadsWith (chars ">") nxt then pyStrip (nxt.drop 1) else []
          | [] => []
        parseLoop rest (i + 1)
          { done := st.done ++ appendCur st.cur
            cur := some ({ number := num, name := name, description := desc, tasks := [] }, 0) }
      | none =>
        match st.cur with
        | some (p, k) => parseLoop rest (i + 1) { st with cur := some (p, k + 1) }
        | none => parseLoop rest (i + 1) st
    else if isTaskGate line then
      match matchTaskLine line, st.cur with
      | some (ind, comp, d), some (p, k) =>
        parseLoop rest (i + 1)
          { st with cur := some ({ p with tasks := p.tasks ++
              [{ description := d, is_complete := comp, indent := ind, line_number := i }] }, k) }
      | _, _ => parseLoop rest (i + 1) st
    else parseLoop rest (i + 1) st

/-- The phase list returned by `parse_checklist` (after the final
`phases.append(current_phase)` at src/core/tools.py:250). -/
def parse_phases (lines : List (List Char)) : List Phase :=
  let st := parseLoop lines 0 ⟨[], none⟩
  st.done ++ appendCur st.cur

/-- Inner loop of the next-task search (src/core/tools.py:256): first task
with `not is_complete and indent == 0`. -/
def firstIncomplete (ts : List TaskItem) : Option TaskItem :=
  ts.find? fun t => ¬ t.is_complete ∧ t.indent = 0

/-- The next-task search over phases in order (src/core/tools.py:254-265). -/
def findNext : List Phase → Option NextTask
  | [] => none
  | p :: ps =>
    match firstIncomplete p.tasks with
    | some t => some { phase := p.name, description := t.description, line_number := t.line_number }
    | none => findNext ps

/-- `Tools.parse_checklist` on the file content: the `phases` and `next_task`
entries of the returned dict. -/
def parse_checklist (content : List Char) : List Phase × Option NextTask :=
  let phases := parse_phases (splitLines content)
  (phases, findNext phases)

/-- `Tools.check_all_tasks_complete` (src/core/tools.py:331-345). -/
def check_all_tasks_complete (content : List Char) : Bool :=
  (parse_checklist content).1.all fun ph => ph.tasks.all fun t => t.is_complete

/-- `NeMoWorkerAgent._all_tasks_complete` (src/agents/nemo_worker.py:38-52). -/
def all_tasks_complete (checklist : List Char) : Bool :=
  (splitLines checklist).all fun line => ¬ leadsWith (chars "- [ ]") (pyStrip line)

/-- First index whose line satisfies `p` (the `for i, line in enumerate`
searches of both `update_checklist` implementations). -/
def findLineIdx (p : List Char → Bool) : List (List Char) → Option Nat
  | [] => none
  | l :: ls => if p l then some 0 else (findLineIdx p ls).map (· + 1)

/-- Search predicate of `Tools.update_checklist` (src/core/tools.py:294):
`task_description in line and line.strip().startswith("- [")`. -/
def matchesTaskT (desc line : List Char) : Bool :=
  containsSub line desc && leadsWith (chars "- [") (pyStrip line)

/-- Search predicate of `RalphTools.update_checklist`
(src/core/nemo_tools.py:203): `task_description in line and "- [ ]" in line`. -/
def matchesTaskR (desc line : List Char) : Bool :=
  containsSub line desc && containsSub line (chars "- [ ]")

/-- The checked-off task line: `- [ ]` → `- [x]` once, then
` (commit: <sha>)` appended after `rstrip` when a truthy sha is given and
`(commit:` is not already present (src/core/tools.py:302-310 and
src/core/nemo_tools.py:211-216, identical). -/
def updatedTaskLine (line : List Char) (commit_sha : Option (List Char)) : List Char :=
  let t1 := replaceFirst line (chars "- [ ]") (chars "- [x]")
  match commit_sha with
  | some sha =>
    if sha = [] then t1
    else if containsSub t1 (chars "(commit:") then t1
    else pyRstrip t1 ++ chars " (commit: " ++ sha ++ chars ")"
  | none => t1

/-- The inserted/overwritten proof annotation line
(src/core/tools.py:316-317): task indent (+2) spaces, then `- Proof: `. -/
def proofLineFor (taskLine pf : List Char) : List Char :=
  List.replicate (taskLine.length - (pyLstrip taskLine).length + 2) ' ' ++
    chars "- Proof: " ++ pf

/-- Place the proof line below index `i`: overwrite line `i+1` when it already
contains `Proof:`, otherwise insert (src/core/tools.py:320-323 and
src/core/nemo_tools.py:225-228, identical). -/
def placeProofLine (lines : List (List Char)) (i : Nat) (pl : List Char) :
    List (List Char) :=
  if i + 1 < lines.length ∧ containsSub (lines.getD (i + 1) []) (chars "Proof:") then
    lines.set (i + 1) pl
  else
    lines.insertIdx (i + 1) pl

/-- `Tools.update_checklist` (src/core/tools.py:273-329) acting on the file
content; `none` models the `ValueError: Task not found` raise.  A falsy
(absent or empty) `proof` skips the proof insertion, mirroring `if proof:`. -/
def update_checklist (content desc : List Char) (mark_complete : Bool)
    (pf commit_sha : Option (List Char)) : Option (List Char) :=
  let lines := splitLines content
  match findLineIdx (matchesTaskT desc) lines with
  | none => none
  | some i =>
    if mark_complete then
      let t2 := updatedTaskLine (lines.getD i []) commit_sha
      let lines1 := lines.set i t2
      let lines2 :=
        match pf with
        | some p => if p = [] then lines1 else placeProofLine lines1 i (proofLineFor t2 p)
        | none => lines1
      some (joinLines lines2)
    else some (joinLines lines)

/-- Document after a `Tools.update_checklist` call: unchanged when the call
raises `ValueError` before the write. -/
def applyUpdate (content desc : List Char) (mark_complete : Bool)
    (pf commit_sha : Option (List Char)) : List Char :=
  (update_checklist content desc mark_complete pf commit_sha).getD content

/-- `RalphTools.update_checklist` (src/core/nemo_tools.py:182-235) acting on
the file content; `none` models the `Task not found` error result (the file
is not written in that case).  `proof` is a required argument and is inserted
unconditionally; marking is unconditional. -/
def ralph_update_checklist (content desc pf : List Char)
    (commit_sha : Option (List Char)) : Option (List Char) :=
  let lines := splitLines content
  match findLineIdx (matchesTaskR desc) lines with
  | none => none
  | some i =>
    let t2 := updatedTaskLine (lines.getD i []) commit_sha
    let lines1 := lines.set i t2
    some (joinLines (placeProofLine lines1 i (proofLineFor t2 pf)))

/-- Document after a `RalphTools.update_checklist` call. -/
def ralphApplyUpdate (content desc pf : List Char)
    (commit_sha : Option (List Char)) : List Char :=
  (ralph_update_checklist content desc pf commit_sha).getD content

/-! ## Loop Controller (src/agents/worker.py `WorkerAgent.execute_step`,
`WorkerAgent.run_loop`; src/agents/nemo_worker.py
`NeMoWorkerAgent.execute_step` / `run_loop`, whose tail beyond line 81 is the
code stored in src/docs/conventions.md)

The LLM gateway is an oracle: a pre-scripted list of responses consumed in
order.  An exhausted script models the gateway raising an exception whose
`str(e)` is the `exc` parameter.  Tool execution is opaque except for its
effect on the checklist file, given by the oracle field `checklist_after`.
Conversation history and console printing carry no claim-relevant state and
are not modelled; the per-step token/usage figures interpolated into the
`continue` message are elided from it. -/

/-- One scripted assistant response, as surfaced by the LLM client wrapper. -/
structure LLMResponse where
  content : List Char
  tool_uses : List Nat
  tokens : Nat
  stop_end_turn : Bool
  checklist_after : List Char
deriving Repr, DecidableEq

/-- The result dict of `execute_step`. -/
structure StepResult where
  success : Bool
  action : List Char
  should_continue : Bool
  message : List Char
deriving Repr, DecidableEq

/-- Observable state when `execute_step` returns: its result, the context
guard, every tool call executed (in order), the unconsumed script, and the
checklist file content on disk. -/
structure SessionOut where
  result : StepResult
  guard : ContextGuard
  executed : List Nat
  rest : List LLMResponse
  checklist : List Char
deriving Repr, DecidableEq

/-- The tool-use loop of `WorkerAgent.execute_step` (src/agents/worker.py:
290-415).  `fuel` is the number of remaining iterations of
`while iteration < max_iterations` (1000 at entry); `fuel = 0` is the
fall-through returning the `Max tool iterations reached` error result. -/
def stepLoop (exc : List Char) : Nat → List LLMResponse → ContextGuard →
    List Char → List Nat → SessionOut
  | 0, script, g, c, ex =>
    ⟨⟨false, chars "error", false, chars "Max tool iterations reached"⟩, g, ex, script, c⟩
  | _ + 1, [], g, c, ex =>
    ⟨⟨false, chars "error", false, chars "Error: " ++ exc⟩, g, ex, [], c⟩
  | fuel + 1, r :: rest, g, c, ex =>
    let g' := g.add_tokens r.tokens
    if containsSub r.content (chars "<ralph>COMPLETE</ralph>") then
      ⟨⟨true, chars "complete", false, chars "Worker signaled completion"⟩, g', ex, rest, c⟩
    else if containsSub r.content (chars "<ralph>GUTTER</ralph>") then
      ⟨⟨false, chars "gutter", false, chars "Worker is stuck (gutter signal)"⟩, g', ex, rest, c⟩
    else if ¬ r.tool_uses.isEmpty then
      stepLoop exc fuel rest g' r.checklist_after (ex ++ r.tool_uses)
    else if r.stop_end_turn then
      if check_all_tasks_complete c then
        ⟨⟨true, chars "complete", false, chars "All tasks complete"⟩, g', ex, rest, c⟩
      else
        ⟨⟨true, chars "continue", ¬ g'.should_rotate, chars "Step completed."⟩, g', ex, rest, c⟩
    else
      stepLoop exc fuel rest g' c ex

/-- `WorkerAgent.execute_step` (src/agents/worker.py:240-415): immediate
`complete` when the checklist is already all-checked, otherwise the tool-use
loop with a cap of 1000 iterations. -/
def execute_step (exc : List Char) (script : List LLMResponse)
    (g : ContextGuard) (c : List Char) : SessionOut :=
  if check_all_tasks_complete c then
    ⟨⟨true, chars "complete", false, chars "<ralph>COMPLETE</ralph>"⟩, g, [], script, c⟩
  else
    stepLoop exc 1000 script g c []

/-- Final observable state of `WorkerAgent.run_loop`: iterations run, guard,
checklist on disk, and the last step result (if any step ran). -/
structure RunState where
  iterations : Nat
  guard : ContextGuard
  checklist : List Char
  last : Option StepResult
deriving Repr, DecidableEq

/-- The `while iteration < max_iterations` loop of `WorkerAgent.run_loop`
(src/agents/worker.py:433-456): break when a step says stop, break when the
guard reaches the rotation threshold. -/
def run_loop_go (exc : List Char) : Nat → List LLMResponse → ContextGuard →
    List Char → Nat → Option StepResult → RunState
  | 0, _, g, c, iter, last => ⟨iter, g, c, last⟩
  | fuel + 1, script, g, c, iter, _ =>
    let s := execute_step exc script g c
    if ¬ s.result.should_continue then
      ⟨iter + 1, s.guard, s.checklist, some s.result⟩
    else if s.guard.should_rotate then
      ⟨iter + 1, s.guard, s.checklist, some s.result⟩
    else
      run_loop_go exc fuel s.rest s.guard s.checklist (iter + 1) (some s.result)

/-- The dict returned by `WorkerAgent.run_loop` (src/agents/worker.py:458-462),
plus the final run state for observation. -/
def run_loop (exc : List Char) (max_iterations : Nat) (script : List LLMResponse)
    (g : ContextGuard) (c : List Char) : RunState × Int × Bool :=
  let st := run_loop_go exc max_iterations script g c 0 none
  (st, st.guard.current_tokens,
    decide (st.iterations < max_iterations) &&
      match st.last with
      | some r => r.action = chars "complete"
      | none => false)

/-- The tool-calling loop of `NeMoWorkerAgent.execute_step`
(src/agents/nemo_worker.py:54- with its tail in src/docs/conventions.md:
17-123).  Marker checks are guarded by `if assistant_message.content:`
(falsy empty content skips them); a turn with neither content markers nor
tool calls immediately returns a `continue` result with
`should_continue = True`. -/
def nemoStepLoop (exc : List Char) : Nat → List LLMResponse → ContextGuard →
    List Char → List Nat → SessionOut
  | 0, script, g, c, ex =>
    ⟨⟨false, chars "error", false, chars "Max tool iterations reached"⟩, g, ex, script, c⟩
  | _ + 1, [], g, c, ex =>
    ⟨⟨false, chars "error", false, chars "Error: " ++ exc⟩, g, ex, [], c⟩
  | fuel + 1, r :: rest, g, c, ex =>
    let g' := g.add_tokens r.tokens
    if ¬ r.content.isEmpty ∧ containsSub r.content (chars "<ralph>COMPLETE</ralph>") then
      ⟨⟨true, chars "complete", false, chars "Worker signaled completion"⟩, g', ex, rest, c⟩
    else if ¬ r.content.isEmpty ∧ containsSub r.content (chars "<ralph>GUTTER</ralph>") then
      ⟨⟨false, chars "gutter", false, chars "Worker is stuck (gutter signal)"⟩, g', ex, rest, c⟩
    else if ¬ r.tool_uses.isEmpty then
      nemoStepLoop exc fuel rest g' r.checklist_after (ex ++ r.tool_uses)
    else
      ⟨⟨true, chars "continue", true, chars "Step completed."⟩, g', ex, rest, c⟩

/-- `NeMoWorkerAgent.execute_step`: immediate `complete` when
`_all_tasks_complete` holds of the checklist content, otherwise the tool loop
with a cap of 1000. -/
def nemo_execute_step (exc : List Char) (script : List LLMResponse)
    (g : ContextGuard) (c : List Char) : SessionOut :=
  if all_tasks_complete c then
    ⟨⟨true, chars "complete", false, chars "<ralph>COMPLETE</ralph>"⟩, g, [], script, c⟩
  else
    nemoStepLoop exc 1000 script g c []

/-- Final observable state of `NeMoWorkerAgent.run_loop`, including the
rotation counter. -/
structure NemoRunState where
  iterations : Nat
  guard : ContextGuard
  checklist : List Char
  rotations : Nat
  last : Option StepResult
deriving Repr, DecidableEq

/-- The `while iteration < max_iterations` loop of `NeMoWorkerAgent.run_loop`
(src/docs/conventions.md:141-171): break when a step says stop; when the
guard reaches the rotation threshold, increment the rotation counter, reset
the guard (and the client token counters) and continue — no break. -/
def nemo_run_loop_go (exc : List Char) : Nat → List LLMResponse → ContextGuard →
    List Char → Nat → Nat → Option StepResult → NemoRunState
  | 0, _, g, c, iter, rot, last => ⟨iter, g, c, rot, last⟩
  | fuel + 1, script, g, c, iter, rot, _ =>
    let s := nemo_execute_step exc script g c
    if ¬ s.result.should_continue then
      ⟨iter + 1, s.guard, s.checklist, rot, some s.result⟩
    else if s.guard.should_rotate then
      nemo_run_loop_go exc fuel s.rest s.guard.reset s.checklist (iter + 1) (rot + 1)
        (some s.result)
    else
      nemo_run_loop_go exc fuel s.rest s.guard s.checklist (iter + 1) rot (some s.result)

/-- The dict returned by `NeMoWorkerAgent.run_loop`
(src/docs/conventions.md:173-178), plus the final run state. -/
def nemo_run_loop (exc : List Char) (max_iterations : Nat)
    (script : List LLMResponse) (g : ContextGuard) (c : List Char) :
    NemoRunState × Int × Bool × Nat :=
  let st := nemo_run_loop_go exc max_iterations script g c 0 0 none
  (st, st.guard.current_tokens,
    (decide (st.iterations < max_iterations) &&
      match st.last with
      | some r => r.action = chars "complete"
      | none => false),
    st.rotations)

/-! ## Line-level characterisation of the parser used by the theorems -/

/-- A line whose task regex matches with an unchecked box. -/
def uncheckedMatch (line : List Char) : Bool :=
  isTaskGate line &&
    match matchTaskLine line with
    | some (_, comp, _) => ¬ comp
    | none => false

/-- The tasks `parse_checklist` records, computed directly over the lines:
a task line is recorded exactly when a well-formed phase header has occurred
strictly before it (`seen`).  Duplicate aliased phases repeat tasks in the
parser output, which never affects completion or next-task search. -/
def collectTasks : Bool → List (List Char) → Nat → List TaskItem
  | _, [], _ => []
  | seen, line :: rest, i =>
    if isHeaderGate line then
      collectTasks (seen || (matchPhaseHeader line).isSome) rest (i + 1)
    else if isTaskGate line then
      match matchTaskLine line with
      | some (ind, comp, d) =>
        if seen then
          { description := d, is_complete := comp, indent := ind, line_number := i } ::
            collectTasks seen rest (i + 1)
        else collectTasks seen rest (i + 1)
      | none => collectTasks seen rest (i + 1)
    else collectTasks seen rest (i + 1)

/-- Every task of every phase is complete. -/
def PhasesAllComplete (phases : List Phase) : Prop :=
  ∀ p ∈ phases, ∀ t ∈ p.tasks, t.is_complete = true

/-- The line list produced by one successful marking call of
`Tools.update_checklist`, on the document split at the first matching line:
check the box (and sha), then place the proof line when the proof is truthy. -/
def updatedDoc (pre : List (List Char)) (t0 : List Char) (suf : List (List Char))
    (pf sha : Option (List Char)) : List (List Char) :=
  let t2 := updatedTaskLine t0 sha
  match pf with
  | none => pre ++ t2 :: suf
  | some p =>
    if p = [] then pre ++ t2 :: suf
    else
      let pl := proofLineFor t2 p
      match suf with
      | [] => pre ++ t2 :: [pl]
      | s1 :: rest =>
        if containsSub s1 (chars "Proof:") = true then pre ++ t2 :: pl :: rest
        else pre ++ t2 :: pl :: s1 :: rest

/-! ## Theorems -/

/-- C2: the sandbox path check is a string-prefix test on the rendered paths,
so relative path `../ws2/secret` against workspace root `/tmp/ws` resolves to
`/tmp/ws2/secret` — outside the root — yet `_resolve_path` accepts it instead
of failing with the outside-workspace error, contradicting both the spec and
the code's own "ensure path is within workspace" comment. -/
theorem claim_C2_escape :
    resolve_path [chars "tmp", chars "ws"] [chars "..", chars "ws2", chars "secret"] =
      some [chars "tmp", chars "ws2", chars "secret"] ∧
    underRoot [chars "tmp", chars "ws"] [chars "tmp", chars "ws2", chars "secret"] = false := by
  decide

/-- C8 (counterexample): the claimed invariant
`threshold_tokens = floor(max_context * threshold_percentage / 100)` is false
of the program: `ContextGuard(29, 100000)` computes
`int(100000 * (29 / 100.0))` in double precision, where `29 / 100.0` rounds
to slightly below 29/100, so the stored threshold is 28999 while the exact
floor is 29000. -/
theorem claim_C8_counterexample :
    (ContextGuard.init ⟨29, 0⟩ 100000).threshold_tokens = 28999 ∧
    ⌊(100000 : Rat) * 29 / 100⌋ = 29000 ∧
    (ContextGuard.init ⟨29, 0⟩ 100000).threshold_tokens ≠
      ⌊(100000 : Rat) * 29 / 100⌋ := by
  have h1 : (ContextGuard.init ⟨29, 0⟩ 100000).threshold_tokens = 28999 := by decide
  have h2 : ⌊(100000 : Rat) * 29 / 100⌋ = 29000 := by norm_num
  refine ⟨h1, h2, ?_⟩
  rw [h1, h2]
  decide

/-- C8 (amended): for `ContextGuard(10, 1_000_000)` the threshold is 100,000
tokens — here the double-precision computation agrees with
`floor(max_context * threshold_percentage / 100)`; `should_rotate()` is false
after `add_tokens` calls totalling 99,999 tokens and true after one more;
`reset()` zeroes the counter and clears `should_rotate()`; in general
`threshold_tokens` is the truncation of the IEEE-754 double product
`max_context * (threshold_percentage / 100.0)` — not always the exact floor —
and `should_rotate()` holds iff `current_tokens >= threshold_tokens`. -/
theorem claim_C8_context_rotation :
    (ContextGuard.init ⟨10, 0⟩ 1000000).threshold_tokens = 100000 ∧
    (ContextGuard.init ⟨10, 0⟩ 1000000).threshold_tokens = ⌊(1000000 : Rat) * 10 / 100⌋ ∧
    ((ContextGuard.init ⟨10, 0⟩ 1000000).add_tokens 99999).should_rotate = false ∧
    (((ContextGuard.init ⟨10, 0⟩ 1000000).add_tokens 99999).add_tokens 1).should_rotate
      = true ∧
    ((((ContextGuard.init ⟨10, 0⟩ 1000000).add_tokens 99999).add_tokens 1).reset).current_tokens
      = 0 ∧
    ((((ContextGuard.init ⟨10, 0⟩ 1000000).add_tokens 99999).add_tokens 1).reset).should_rotate
      = false ∧
    (∀ (g : ContextGuard) (a b : Int), (g.add_tokens a).add_tokens b = g.add_tokens (a + b)) ∧
    (∀ (p : F64) (m : Nat), (ContextGuard.init p m).threshold_tokens =
      pythonIntF (fmulF (intToF m) (fdivF p (intToF 100)))) ∧
    (∀ g : ContextGuard, g.should_rotate = true ↔ g.threshold_tokens ≤ g.current_tokens) := by
  have h1 : (ContextGuard.init ⟨10, 0⟩ 1000000).threshold_tokens = 100000 := by decide
  have h2 : ⌊(1000000 : Rat) * 10 / 100⌋ = 100000 := by norm_num
  refine ⟨h1, by rw [h1, h2], by decide, by decide, by decide, by decide, ?_, ?_, ?_⟩
  · intro g a b
    simp [ContextGuard.add_tokens, add_assoc]
  · intro p m
    rfl
  · intro g
    simp [ContextGuard.should_rotate]

/-- A successful `startswith` exhibits the tail. -/
theorem leadsWith_append_drop {p s : List Char} (h : leadsWith p s = true) :
    s = p ++ s.drop p.length := by
  induction p generalizing s with
  | nil => simp
  | cons a p' ih =>
    cases s with
    | nil => simp [leadsWith] at h
    | cons b s' =>
      simp only [leadsWith, Bool.and_eq_true, beq_iff_eq] at h
      obtain ⟨rfl, h2⟩ := h
      simpa using ih h2

/-- A pattern with no occurrence has count zero. -/
theorem containsSub_eq_false_of_countSub_eq_zero {s p : List Char} (hp : p ≠ [])
    (h : countSub s p = 0) : containsSub s p = false := by
  induction s with
  | nil =>
    cases p with
    | nil => exact absurd rfl hp
    | cons a p' => simp [containsSub, leadsWith]
  | cons c s' ih =>
    cases p with
    | nil => exact absurd rfl hp
    | cons a p' =>
      rw [countSub] at h
      by_cases hl : leadsWith (a :: p') (c :: s') = true
      · rw [if_pos hl] at h
        omega
      · rw [if_neg hl] at h
        simp only [containsSub, Bool.or_eq_false_iff]
        exact ⟨by simpa using hl, ih h⟩

/-- A positive count exhibits an occurrence. -/
theorem containsSub_of_countSub_pos {s p : List Char} (hp : p ≠ [])
    (h : 1 ≤ countSub s p) : containsSub s p = true := by
  induction s with
  | nil =>
    cases p with
    | nil => exact absurd rfl hp
    | cons a p' => simp [countSub] at h
  | cons c s' ih =>
    cases p with
    | nil => exact absurd rfl hp
    | cons a p' =>
      rw [countSub] at h
      by_cases hl : leadsWith (a :: p') (c :: s') = true
      · simp [containsSub, hl]
      · rw [if_neg hl] at h
        simp [containsSub, ih h]

/-- A count of exactly one splits the string around the unique occurrence and
computes `replaceFirst` there. -/
theorem countSub_one_decomp {s p : List Char} (new : List Char) (hp : p ≠ [])
    (h : countSub s p = 1) :
    ∃ a b, s = a ++ p ++ b ∧ containsSub b p = false ∧
      replaceFirst s p new = a ++ new ++ b := by
  induction s with
  | nil =>
    cases p with
    | nil => exact absurd rfl hp
    | cons a p' => simp [countSub] at h
  | cons c s' ih =>
    cases p with
    | nil => exact absurd rfl hp
    | cons a p' =>
      rw [countSub] at h
      by_cases hl : leadsWith (a :: p') (c :: s') = true
      · rw [if_pos hl] at h
        have hb : countSub ((c :: s').drop (a :: p').length) (a :: p') = 0 := by omega
        refine ⟨[], (c :: s').drop (a :: p').length, ?_, ?_, ?_⟩
        · simpa using leadsWith_append_drop hl
        · exact containsSub_eq_false_of_countSub_eq_zero hp hb
        · simp [replaceFirst, hl]
      · rw [if_neg hl] at h
        obtain ⟨a2, b2, hs, hb, hr⟩ := ih h
        refine ⟨c :: a2, b2, by simp [hs], hb, ?_⟩
        simp [replaceFirst, hl, hr]

/-- The two replace-mode failure messages are distinct whatever the path and
the occurrence count. -/
theorem notFoundMsg_ne_appearsMsg (path : List Char) (n : Nat) (q : List Char) :
    notFoundMsg path ≠ appearsMsg n q := by
  intro h
  have h15 := congrArg (fun l => l[15]?) h
  simp only [notFoundMsg, appearsMsg, List.append_assoc] at h15
  rw [List.getElem?_append_left (by decide), List.getElem?_append_left (by decide)] at h15
  exact absurd h15 (by decide)

/-- C6: in replace mode on an existing file with nonempty `old_str`, zero
occurrences yield the `not found` failure result, more than one occurrence
yields the distinct `appears N times` failure result (both plain results with
no write, distinguishable from each other for every path and count), and
exactly one occurrence writes the file that differs from the original only by
that single substitution. -/
theorem claim_C6_structured_edit (path content old : List Char)
    (new : Option (List Char)) (hold : old ≠ []) :
    (countSub content old = 0 →
      str_replace_editor (chars "str_replace") path true content (some old) new =
        ⟨notFoundMsg path, none⟩) ∧
    (∀ n : Nat, countSub content old = n → 2 ≤ n →
      str_replace_editor (chars "str_replace") path true content (some old) new =
        ⟨appearsMsg n path, none⟩) ∧
    (countSub content old = 1 →
      ∃ a b, content = a ++ old ++ b ∧ containsSub b old = false ∧
        (str_replace_editor (chars "str_replace") path true content (some old) new).write =
          some (a ++ new.getD [] ++ b)) ∧
    (∀ (n : Nat) (q : List Char), notFoundMsg path ≠ appearsMsg n q) := by
  have hcr : ¬ (chars "str_replace" = chars "create") := by decide
  have hex : ¬ (¬ (true : Bool) = true) := by decide
  have hgd : (some old).getD [] = old := rfl
  refine ⟨?_, ?_, ?_, fun n q => notFoundMsg_ne_appearsMsg path n q⟩
  · intro h0
    have hnc : containsSub content old = false :=
      containsSub_eq_false_of_countSub_eq_zero hold h0
    rw [str_replace_editor, if_neg hcr, if_pos rfl, if_neg hex, hgd, if_neg hold,
      if_pos (by simp [hnc])]
  · intro n hn h2
    have hc : containsSub content old = true :=
      containsSub_of_countSub_pos hold (by omega)
    rw [str_replace_editor, if_neg hcr, if_pos rfl, if_neg hex, hgd, if_neg hold,
      if_neg (by simp [hc])]
    simp only [hn]
    rw [if_pos (by omega)]
  · intro h1
    have hc : containsSub content old = true :=
      containsSub_of_countSub_pos hold (by omega)
    obtain ⟨a, b, hab, hb, hr⟩ := countSub_one_decomp (new.getD []) hold h1
    refine ⟨a, b, hab, hb, ?_⟩
    rw [str_replace_editor, if_neg hcr, if_pos rfl, if_neg hex, hgd, if_neg hold,
      if_neg (by simp [hc])]
    simp only [h1]
    rw [if_neg (by omega)]
    simp [hr]

/-- C6 witness: the replace branch evaluated at `content = "ab"`,
`old_str = "b"`, `new_str = "c"`. -/
theorem claim_C6_structured_edit_witness :
    (chars "b" ≠ []) ∧
    ((countSub (chars "ab") (chars "b") = 0 →
      str_replace_editor (chars "str_replace") (chars "f.py") true (chars "ab")
          (some (chars "b")) (some (chars "c")) =
        ⟨notFoundMsg (chars "f.py"), none⟩) ∧
    (∀ n : Nat, countSub (chars "ab") (chars "b") = n → 2 ≤ n →
      str_replace_editor (chars "str_replace") (chars "f.py") true (chars "ab")
          (some (chars "b")) (some (chars "c")) =
        ⟨appearsMsg n (chars "f.py"), none⟩) ∧
    (countSub (chars "ab") (chars "b") = 1 →
      ∃ a b, chars "ab" = a ++ chars "b" ++ b ∧ containsSub b (chars "b") = false ∧
        (str_replace_editor (chars "str_replace") (chars "f.py") true (chars "ab")
            (some (chars "b")) (some (chars "c"))).write =
          some (a ++ (some (chars "c")).getD [] ++ b)) ∧
    (∀ (n : Nat) (q : List Char), notFoundMsg (chars "f.py") ≠ appearsMsg n q)) :=
  ⟨by decide, claim_C6_structured_edit (chars "f.py") (chars "ab") (chars "b")
    (some (chars "c")) (by decide)⟩

/-- C7 (counterexample): an assistant turn whose text carries BOTH the
completion marker and the stuck marker, together with a tool call, makes the
session end as `complete`, not `gutter`: the completion check runs first, so
the claim's unconditional "transitions to Stuck" is false for such a turn. -/
theorem claim_C7_counterexample :
    containsSub (chars "<ralph>COMPLETE</ralph> and <ralph>GUTTER</ralph>")
      (chars "<ralph>GUTTER</ralph>") = true ∧
    (stepLoop (chars "e") 1
      [⟨chars "<ralph>COMPLETE</ralph> and <ralph>GUTTER</ralph>", [7], 5, false, chars ""⟩]
      ⟨⟨10, 0⟩, 1000000, 100000, 0⟩ (chars "- [ ] t") []).result.action = chars "complete" ∧
    (stepLoop (chars "e") 1
      [⟨chars "<ralph>COMPLETE</ralph> and <ralph>GUTTER</ralph>", [7], 5, false, chars ""⟩]
      ⟨⟨10, 0⟩, 1000000, 100000, 0⟩ (chars "- [ ] t") []).result.action ≠ chars "gutter" := by
  refine ⟨by decide, ?_, ?_⟩ <;> decide

/-- C7 (amended): if the assistant turn's text contains the stuck marker and
not the completion marker (which is checked first), the tool-use loop returns
the `gutter` result immediately: `should_continue` is false, the executed tool
list is unchanged — no tool call of that turn or of any later turn of the
session is executed — and the session ends as Stuck. -/
theorem claim_C7_gutter_stops_session (exc : List Char) (fuel : Nat)
    (r : LLMResponse) (rest : List LLMResponse) (g : ContextGuard)
    (c : List Char) (ex : List Nat)
    (hg : containsSub r.content (chars "<ralph>GUTTER</ralph>") = true)
    (hc : containsSub r.content (chars "<ralph>COMPLETE</ralph>") = false) :
    stepLoop exc (fuel + 1) (r :: rest) g c ex =
      ⟨⟨false, chars "gutter", false, chars "Worker is stuck (gutter signal)"⟩,
        g.add_tokens r.tokens, ex, rest, c⟩ := by
  rw [stepLoop]
  simp only [hg, hc]
  simp

/-- C7 witness: a gutter-only turn carrying a tool call ends the session with
no tool executed. -/
theorem claim_C7_gutter_stops_session_witness :
    containsSub (chars "stuck <ralph>GUTTER</ralph>") (chars "<ralph>GUTTER</ralph>") = true ∧
    stepLoop (chars "e") 1
        [⟨chars "stuck <ralph>GUTTER</ralph>", [3], 7, false, chars ""⟩]
        ⟨⟨10, 0⟩, 1000000, 100000, 0⟩ (chars "- [ ] t") [] =
      ⟨⟨false, chars "gutter", false, chars "Worker is stuck (gutter signal)"⟩,
        ContextGuard.add_tokens ⟨⟨10, 0⟩, 1000000, 100000, 0⟩ 7, [], [], chars "- [ ] t"⟩ :=
  ⟨by decide,
    claim_C7_gutter_stops_session (chars "e") 0
      ⟨chars "stuck <ralph>GUTTER</ralph>", [3], 7, false, chars ""⟩ []
      ⟨⟨10, 0⟩, 1000000, 100000, 0⟩ (chars "- [ ] t") [] (by decide) (by decide)⟩

/-- Exhausting the 1000-iteration cap of the tool-use loop: if the first `n`
scripted turns all carry tool calls and no in-band marker, running with fuel
`n` falls through to the `Max tool iterations reached` error result. -/
theorem stepLoop_cap_result (exc : List Char) :
    ∀ (n : Nat) (script : List LLMResponse) (g : ContextGuard) (c : List Char)
      (ex : List Nat),
      n ≤ script.length →
      (∀ r ∈ script,
        containsSub r.content (chars "<ralph>COMPLETE</ralph>") = false ∧
        containsSub r.content (chars "<ralph>GUTTER</ralph>") = false ∧
        r.tool_uses ≠ []) →
      (stepLoop exc n script g c ex).result =
        ⟨false, chars "error", false, chars "Max tool iterations reached"⟩ := by
  intro n
  induction n with
  | zero => intro script g c ex h1 h2; rfl
  | succ m ih =>
    intro script g c ex h1 h2
    cases script with
    | nil => simp at h1
    | cons r rest =>
      obtain ⟨hc, hg, ht⟩ := h2 r (by simp)
      rw [stepLoop]
      simp only [hc, hg]
      simp only [Bool.false_eq_true, if_false]
      rw [if_pos (by simpa [List.isEmpty_iff] using ht)]
      exact ih rest _ _ _ (by simpa using h1) (fun x hx => h2 x (by simp [hx]))

/-- C4 (counterexample): hitting the per-session iteration cap is NOT a
distinct outcome.  A session of 1000 scripted tool-calling turns exhausts the
cap and returns `success = False, action = "error"` — exactly the success flag
and action of the hard-error outcome produced when the gateway raises (empty
script), so the claim's "neither the success outcome nor the hard-error
outcome" fails: the two differ only in their message text. -/
theorem claim_C4_counterexample :
    (stepLoop (chars "boom") 1000
        (List.replicate 1000 ⟨chars "w", [0], 0, false, chars ""⟩)
        ⟨⟨10, 0⟩, 1000000, 100000, 0⟩ (chars "- [ ] t") []).result.success = false ∧
    (stepLoop (chars "boom") 1000
        (List.replicate 1000 ⟨chars "w", [0], 0, false, chars ""⟩)
        ⟨⟨10, 0⟩, 1000000, 100000, 0⟩ (chars "- [ ] t") []).result.action = chars "error" ∧
    (stepLoop (chars "boom") 1000 [] ⟨⟨10, 0⟩, 1000000, 100000, 0⟩
        (chars "- [ ] t") []).result.success = false ∧
    (stepLoop (chars "boom") 1000 [] ⟨⟨10, 0⟩, 1000000, 100000, 0⟩
        (chars "- [ ] t") []).result.action = chars "error" := by
  have hlen : (List.replicate 1000
      (⟨chars "w", [0], 0, false, chars ""⟩ : LLMResponse)).length = 1000 :=
    List.length_replicate 1000 _
  have hcap := stepLoop_cap_result (chars "boom") 1000
    (List.replicate 1000 ⟨chars "w", [0], 0, false, chars ""⟩)
    ⟨⟨10, 0⟩, 1000000, 100000, 0⟩ (chars "- [ ] t") [] (by omega)
    (by
      intro r hr
      rw [List.eq_of_mem_replicate hr]
      refine ⟨by decide, by decide, by decide⟩)
  refine ⟨by rw [hcap], by rw [hcap], rfl, rfl⟩

/-- C4 (amended): exhausting the 1000-iteration tool-loop cap yields the
result `success = False, action = "error", message = "Max tool iterations
reached"` — the same success flag and action as the hard-error outcome, so a
caller can tell "ran out of budget" from a gateway error only by the message
text (which never collides with the `Error: <exception>` messages), and can
tell it from finishing (`action = "complete"`) and from being stuck
(`action = "gutter"`). -/
theorem claim_C4_cap_is_error_outcome (exc : List Char)
    (script : List LLMResponse) (g : ContextGuard) (c : List Char)
    (h1 : 1000 ≤ script.length)
    (h2 : ∀ r ∈ script,
      containsSub r.content (chars "<ralph>COMPLETE</ralph>") = false ∧
      containsSub r.content (chars "<ralph>GUTTER</ralph>") = false ∧
      r.tool_uses ≠ []) :
    (stepLoop exc 1000 script g c []).result =
      ⟨false, chars "error", false, chars "Max tool iterations reached"⟩ ∧
    (∀ (e : List Char) (g2 : ContextGuard) (c2 : List Char) (ex2 : List Nat),
      (stepLoop e 1000 ([] : List LLMResponse) g2 c2 ex2).result.action =
        chars "error" ∧
      (stepLoop exc 1000 script g c []).result.message ≠
        (stepLoop e 1000 ([] : List LLMResponse) g2 c2 ex2).result.message) ∧
    chars "error" ≠ chars "complete" ∧ chars "error" ≠ chars "gutter" := by
  have hcap := stepLoop_cap_result exc 1000 script g c [] h1 h2
  refine ⟨hcap, ?_, by decide, by decide⟩
  intro e g2 c2 ex2
  refine ⟨rfl, ?_⟩
  rw [hcap]
  intro habs
  have h0 : (some 'M' : Option Char) = some 'E' := congrArg List.head? habs
  simp at h0

/-- C4 witness: the cap outcome on a concrete 1000-turn tool-calling script. -/
theorem claim_C4_cap_is_error_outcome_witness :
    (stepLoop (chars "boom2") 1000
        (List.replicate 1000 ⟨chars "x", [1], 2, false, chars ""⟩)
        ⟨⟨10, 0⟩, 1000000, 100000, 0⟩ (chars "- [ ] u") []).result =
      ⟨false, chars "error", false, chars "Max tool iterations reached"⟩ :=
  (claim_C4_cap_is_error_outcome (chars "boom2")
    (List.replicate 1000 ⟨chars "x", [1], 2, false, chars ""⟩)
    ⟨⟨10, 0⟩, 1000000, 100000, 0⟩ (chars "- [ ] u")
    (le_of_eq (List.length_replicate 1000 _).symm)
    (by
      intro r hr
      rw [List.eq_of_mem_replicate hr]
      refine ⟨by decide, by decide, by decide⟩)).1

/-- C3 (counterexample): in `WorkerAgent.run_loop` reaching the rotation
threshold terminates the whole run instead of rotating.  With threshold
100,000 and one 200,000-token end-of-turn step, the run stops after iteration
1 with the step reporting `continue` (neither Done, Stuck, exhausted, nor
error), the Context Guard is left un-reset at 200,000 tokens, and no fresh
session is started; raising the threshold to 10,000,000 makes the very same
script run further (3 iterations), so the termination was caused by rotation
alone. -/
theorem claim_C3_counterexample :
    (run_loop_go (chars "boom") 50
        [⟨chars "ok", [], 200000, true, chars "### Phase 1: A\n- [ ] t"⟩,
         ⟨chars "ok", [], 200000, true, chars "### Phase 1: A\n- [ ] t"⟩]
        ⟨⟨10, 0⟩, 1000000, 100000, 0⟩ (chars "### Phase 1: A\n- [ ] t") 0 none).iterations = 1 ∧
    (run_loop_go (chars "boom") 50
        [⟨chars "ok", [], 200000, true, chars "### Phase 1: A\n- [ ] t"⟩,
         ⟨chars "ok", [], 200000, true, chars "### Phase 1: A\n- [ ] t"⟩]
        ⟨⟨10, 0⟩, 1000000, 100000, 0⟩ (chars "### Phase 1: A\n- [ ] t") 0 none).guard.current_tokens
      = 200000 ∧
    (run_loop_go (chars "boom") 50
        [⟨chars "ok", [], 200000, true, chars "### Phase 1: A\n- [ ] t"⟩,
         ⟨chars "ok", [], 200000, true, chars "### Phase 1: A\n- [ ] t"⟩]
        ⟨⟨10, 0⟩, 1000000, 100000, 0⟩ (chars "### Phase 1: A\n- [ ] t") 0 none).last =
      some ⟨true, chars "continue", false, chars "Step completed."⟩ ∧
    (run_loop_go (chars "boom") 50
        [⟨chars "ok", [], 200000, true, chars "### Phase 1: A\n- [ ] t"⟩,
         ⟨chars "ok", [], 200000, true, chars "### Phase 1: A\n- [ ] t"⟩]
        ⟨⟨10, 0⟩, 1000000, 10000000, 0⟩ (chars "### Phase 1: A\n- [ ] t") 0 none).iterations = 3 := by
  refine ⟨?_, ?_, ?_, ?_⟩ <;> decide

/-- C3 (amended): the NeMo worker's driver does rotate: when a step that
wants to continue leaves the Context Guard at or above the threshold, the
loop recurses with the rotation counter incremented, the guard reset
(`current_tokens = 0`, threshold preserved) and the checklist passed through
untouched — the run does not terminate on rotation.  (The NeMo conversation
state is rebuilt from scratch inside every `execute_step` call.)  The Claude
worker's `run_loop` instead breaks out of the run, as the counterexample
shows. -/
theorem claim_C3_nemo_rotation (exc : List Char) (fuel : Nat)
    (script : List LLMResponse) (g : ContextGuard) (c : List Char)
    (iter rot : Nat) (last : Option StepResult)
    (h1 : (nemo_execute_step exc script g c).result.should_continue = true)
    (h2 : (nemo_execute_step exc script g c).guard.should_rotate = true) :
    nemo_run_loop_go exc (fuel + 1) script g c iter rot last =
      nemo_run_loop_go exc fuel (nemo_execute_step exc script g c).rest
        ((nemo_execute_step exc script g c).guard.reset)
        ((nemo_execute_step exc script g c).checklist) (iter + 1) (rot + 1)
        (some (nemo_execute_step exc script g c).result) ∧
    ((nemo_execute_step exc script g c).guard.reset).current_tokens = 0 ∧
    ((nemo_execute_step exc script g c).guard.reset).threshold_tokens =
      (nemo_execute_step exc script g c).guard.threshold_tokens := by
  refine ⟨?_, rfl, rfl⟩
  rw [nemo_run_loop_go]
  rw [if_neg (by simp [h1]), if_pos h2]

/-- C3 witness: a concrete over-threshold continuing step makes the NeMo loop
rotate and continue with a zeroed guard and the same checklist. -/
theorem claim_C3_nemo_rotation_witness :
    (nemo_execute_step (chars "boom")
        [⟨chars "ok", [], 200000, false, chars "- [ ] t"⟩]
        ⟨⟨10, 0⟩, 1000000, 100000, 0⟩ (chars "- [ ] t")).result.should_continue = true ∧
    nemo_run_loop_go (chars "boom") 1
        [⟨chars "ok", [], 200000, false, chars "- [ ] t"⟩]
        ⟨⟨10, 0⟩, 1000000, 100000, 0⟩ (chars "- [ ] t") 0 0 none =
      nemo_run_loop_go (chars "boom") 0
        (nemo_execute_step (chars "boom")
          [⟨chars "ok", [], 200000, false, chars "- [ ] t"⟩]
          ⟨⟨10, 0⟩, 1000000, 100000, 0⟩ (chars "- [ ] t")).rest
        ((nemo_execute_step (chars "boom")
          [⟨chars "ok", [], 200000, false, chars "- [ ] t"⟩]
          ⟨⟨10, 0⟩, 1000000, 100000, 0⟩ (chars "- [ ] t")).guard.reset)
        ((nemo_execute_step (chars "boom")
          [⟨chars "ok", [], 200000, false, chars "- [ ] t"⟩]
          ⟨⟨10, 0⟩, 1000000, 100000, 0⟩ (chars "- [ ] t")).checklist) 1 1
        (some (nemo_execute_step (chars "boom")
          [⟨chars "ok", [], 200000, false, chars "- [ ] t"⟩]
          ⟨⟨10, 0⟩, 1000000, 100000, 0⟩ (chars "- [ ] t")).result) :=
  ⟨by decide,
    (claim_C3_nemo_rotation (chars "boom") 0
      [⟨chars "ok", [], 200000, false, chars "- [ ] t"⟩]
      ⟨⟨10, 0⟩, 1000000, 100000, 0⟩ (chars "- [ ] t") 0 0 none
      (by decide) (by decide)).1⟩

/-- Completeness distributes over phase-list concatenation. -/
theorem phasesAllComplete_append {xs ys : List Phase} :
    PhasesAllComplete (xs ++ ys) ↔ PhasesAllComplete xs ∧ PhasesAllComplete ys := by
  simp [PhasesAllComplete, List.mem_append, or_imp, forall_and]

/-- Completeness of the duplicated (aliased) copies of one phase is
completeness of that phase's tasks. -/
theorem phasesAllComplete_replicate {k : Nat} {p : Phase} :
    PhasesAllComplete (List.replicate (k + 1) p) ↔ ∀ t ∈ p.tasks, t.is_complete = true := by
  simp [PhasesAllComplete, List.mem_replicate]

/-- The parser invariant: after running the scan from any state, every task of
every produced phase is complete iff that already held of the state and every
task recorded from the remaining lines (`collectTasks`, with the seen-a-header
flag given by whether a current phase exists) is complete. -/
theorem parseLoop_allComplete :
    ∀ (lines : List (List Char)) (i : Nat) (st : ParseState),
      PhasesAllComplete ((parseLoop lines i st).done ++ appendCur (parseLoop lines i st).cur) ↔
        (PhasesAllComplete (st.done ++ appendCur st.cur) ∧
          ∀ t ∈ collectTasks st.cur.isSome lines i, t.is_complete = true) := by
  intro lines
  induction lines with
  | nil => intro i st; simp [parseLoop, collectTasks]
  | cons line rest ih =>
    intro i st
    by_cases hH : isHeaderGate line = true
    · rcases hm : matchPhaseHeader line with _ | ⟨num, name⟩
      · -- header guard passes but the regex fails: the current dict is
        -- appended once more as an alias
        rcases hcur : st.cur with _ | ⟨p, k⟩
        · rw [parseLoop.eq_def]
          simp only [hH, if_true, hm, hcur]
          rw [collectTasks.eq_def]
          simp only [hH, if_true, hm, Option.isSome_none, Bool.or_false]
          have := ih (i + 1) st
          rw [hcur] at this
          simpa [hcur] using this
        · rw [parseLoop.eq_def]
          simp only [hH, if_true, hm, hcur]
          rw [collectTasks.eq_def]
          simp only [hH, if_true, hm, Option.isSome_none, Bool.or_false]
          have := ih (i + 1) ⟨st.done, some (p, k + 1)⟩
          simp only [this]
          simp [appendCur, hcur, phasesAllComplete_append, phasesAllComplete_replicate]
      · -- a well-formed header: freeze the current dict, open a new phase
        rw [parseLoop.eq_def]
        simp only [hH, if_true, hm]
        rw [collectTasks.eq_def]
        simp only [hH, if_true, hm, Option.isSome_some, Bool.or_true]
        refine Iff.trans (ih (i + 1) _) ?_
        constructor
        · rintro ⟨hA, hC⟩
          rw [phasesAllComplete_append] at hA
          exact ⟨hA.1, hC⟩
        · rintro ⟨hA, hC⟩
          refine ⟨?_, hC⟩
          rw [phasesAllComplete_append]
          refine ⟨hA, ?_⟩
          intro q hq t ht
          simp only [appendCur, List.mem_replicate] at hq
          rw [hq.2] at ht
          simp at ht
    · by_cases hG : isTaskGate line = true
      · rcases hm : matchTaskLine line with _ | ⟨ind, comp, d⟩
        · rw [parseLoop.eq_def]
          simp only [hH, if_false, hG, if_true, hm]
          rw [collectTasks.eq_def]
          simp only [hH, if_false, hG, if_true, hm]
          exact ih (i + 1) st
        · rcases hcur : st.cur with _ | ⟨p, k⟩
          · rw [parseLoop.eq_def]
            simp only [hH, if_false, hG, if_true, hm, hcur]
            rw [collectTasks.eq_def]
            simp only [hH, if_false, hG, if_true, hm, hcur, Option.isSome_none]
            have := ih (i + 1) st
            rw [hcur] at this
            simpa [hcur] using this
          · rw [parseLoop.eq_def]
            simp only [hH, if_false, hG, if_true, hm, hcur]
            rw [collectTasks.eq_def]
            simp only [hH, if_false, hG, if_true, hm, hcur, Option.isSome_some]
            refine Iff.trans (ih (i + 1) _) ?_
            simp only [appendCur, hcur, Option.isSome_some, phasesAllComplete_append,
              phasesAllComplete_replicate]
            constructor
            · rintro ⟨⟨h1, h2⟩, h3⟩
              have hcomp := h2
                { description := d, is_complete := comp, indent := ind, line_number := i }
                (by simp)
              refine ⟨⟨h1, fun t ht => h2 t (by simp [ht])⟩, ?_⟩
              intro t ht
              rcases List.mem_cons.mp ht with rfl | ht'
              · exact hcomp
              · exact h3 t ht'
            · rintro ⟨⟨h1, h2⟩, h3⟩
              refine ⟨⟨h1, ?_⟩, fun t ht => h3 t (by simp [ht])⟩
              intro t ht
              rcases List.mem_append.mp ht with ht' | ht'
              · exact h2 t ht'
              · rw [List.mem_singleton.mp ht']
                exact h3 _ (by simp)
      · rw [parseLoop.eq_def]
        simp only [hH, if_false, hG, if_false]
        rw [collectTasks.eq_def]
        simp only [hH, if_false, hG, if_false]
        exact ih (i + 1) st

/-- `check_all_tasks_complete` holds exactly when every task the parser
records (a checkbox line strictly after some well-formed phase header, at any
indentation) is checked. -/
theorem check_all_iff_collect (content : List Char) :
    check_all_tasks_complete content = true ↔
      ∀ t ∈ collectTasks false (splitLines content) 0, t.is_complete = true := by
  have h := parseLoop_allComplete (splitLines content) 0 ⟨[], none⟩
  simp only [Option.isSome_none] at h
  rw [show (([] : List Phase) ++ appendCur none) = [] from rfl] at h
  have h0 : PhasesAllComplete ([] : List Phase) := by
    intro p hp
    simp at hp
  have hx : check_all_tasks_complete content = true ↔
      PhasesAllComplete ((parseLoop (splitLines content) 0 ⟨[], none⟩).done ++
        appendCur (parseLoop (splitLines content) 0 ⟨[], none⟩).cur) := by
    simp [check_all_tasks_complete, parse_checklist, parse_phases, PhasesAllComplete,
      List.all_eq_true, List.mem_append, or_imp, forall_and]
  rw [hx, h]
  simp [h0]

/-- A fully complete phase list has no next task. -/
theorem findNext_eq_none_of_allComplete :
    ∀ phases : List Phase, PhasesAllComplete phases → findNext phases = none := by
  intro phases
  induction phases with
  | nil => intro _; rfl
  | cons p ps ih =>
    intro h
    have hp : firstIncomplete p.tasks = none := by
      rw [firstIncomplete, List.find?_eq_none]
      intro t ht
      simp [h p (by simp) t ht]
    simp only [findNext, hp]
    exact ih fun q hq => h q (by simp [hq])

/-- One-step unfolding of `collectTasks` on a cons cell. -/
theorem collectTasks_cons (seen : Bool) (line : List Char)
    (rest : List (List Char)) (i : Nat) :
    collectTasks seen (line :: rest) i =
      if isHeaderGate line then
        collectTasks (seen || (matchPhaseHeader line).isSome) rest (i + 1)
      else if isTaskGate line then
        match matchTaskLine line with
        | some (ind, comp, d) =>
          if seen then
            { description := d, is_complete := comp, indent := ind, line_number := i } ::
              collectTasks seen rest (i + 1)
          else collectTasks seen rest (i + 1)
        | none => collectTasks seen rest (i + 1)
      else collectTasks seen rest (i + 1) := rfl

/-- If no line of the document matches the unchecked-task pattern, every
recorded task is complete, whatever the header flag. -/
theorem collect_complete_of_no_unchecked :
    ∀ (lines : List (List Char)) (i : Nat) (seen : Bool),
      (∀ l ∈ lines, uncheckedMatch l = false) →
      ∀ t ∈ collectTasks seen lines i, t.is_complete = true := by
  intro lines
  induction lines with
  | nil => intro i seen _ t ht; simp [collectTasks] at ht
  | cons line rest ih =>
    intro i seen h t ht
    rw [collectTasks_cons] at ht
    by_cases hH : isHeaderGate line = true
    · rw [if_pos hH] at ht
      exact ih (i + 1) _ (fun l hl => h l (by simp [hl])) t ht
    · rw [if_neg hH] at ht
      by_cases hG : isTaskGate line = true
      · rw [if_pos hG] at ht
        rcases hm : matchTaskLine line with _ | ⟨ind, comp, d⟩
        · simp only [hm] at ht
          exact ih (i + 1) _ (fun l hl => h l (by simp [hl])) t ht
        · simp only [hm] at ht
          by_cases hseen : seen = true
          · rw [if_pos hseen] at ht
            rcases List.mem_cons.mp ht with rfl | ht'
            · have hu := h line (by simp)
              simp only [uncheckedMatch, hG, hm, Bool.true_and] at hu
              simpa using hu
            · exact ih (i + 1) _ (fun l hl => h l (by simp [hl])) t ht'
          · rw [if_neg hseen] at ht
            exact ih (i + 1) _ (fun l hl => h l (by simp [hl])) t ht
      · rw [if_neg hG] at ht
        exact ih (i + 1) _ (fun l hl => h l (by simp [hl])) t ht

/-- If the first `k` lines contain no well-formed phase header and the lines
from `k` on contain no unchecked checkbox line, every recorded task is
complete. -/
theorem collect_complete_of_header_split :
    ∀ (k : Nat) (lines : List (List Char)) (i : Nat),
      (∀ l ∈ lines.take k, isGoodHeader l = false) →
      (∀ l ∈ lines.drop k, uncheckedMatch l = false) →
      ∀ t ∈ collectTasks false lines i, t.is_complete = true := by
  intro k
  induction k with
  | zero =>
    intro lines i h1 h2
    exact collect_complete_of_no_unchecked lines i false (by simpa using h2)
  | succ m ih =>
    intro lines i h1 h2
    cases lines with
    | nil => intro t ht; simp [collectTasks] at ht
    | cons line rest =>
      intro t ht
      have hGH : isGoodHeader line = false := h1 line (by simp)
      have hr1 : ∀ l ∈ rest.take m, isGoodHeader l = false :=
        fun l hl => h1 l (by simp [hl])
      have hr2 : ∀ l ∈ rest.drop m, uncheckedMatch l = false :=
        fun l hl => h2 l (by simpa using hl)
      rw [collectTasks_cons] at ht
      by_cases hH : isHeaderGate line = true
      · rw [if_pos hH] at ht
        have hiso : (matchPhaseHeader line).isSome = false := by
          simpa [isGoodHeader, hH] using hGH
        simp only [hiso, Bool.or_false] at ht
        exact ih rest (i + 1) hr1 hr2 t ht
      · rw [if_neg hH] at ht
        by_cases hG : isTaskGate line = true
        · rw [if_pos hG] at ht
          rcases hm : matchTaskLine line with _ | ⟨ind, comp, d⟩
          · simp only [hm] at ht
            exact ih rest (i + 1) hr1 hr2 t ht
          · simp only [hm, Bool.false_eq_true, if_false] at ht
            exact ih rest (i + 1) hr1 hr2 t ht
        · rw [if_neg hG] at ht
          exact ih rest (i + 1) hr1 hr2 t ht

/-- C1 (counterexample): an unchecked sub-task alone flips completion.  In
a checklist whose only indentation-0 task is checked but whose indented
sub-task is not, every indentation-0 task is complete, yet
`Tools.check_all_tasks_complete` returns `False` (and so does the NeMo
worker's `_all_tasks_complete`), so top-level completion is NOT decided by
indentation-0 tasks only. -/
theorem claim_C1_counterexample :
    (∀ t ∈ collectTasks false
        (splitLines (chars "### Phase 1: Setup\n- [x] top task\n  - [ ] sub task")) 0,
      t.indent = 0 → t.is_complete = true) ∧
    check_all_tasks_complete (chars "### Phase 1: Setup\n- [x] top task\n  - [ ] sub task")
      = false ∧
    all_tasks_complete (chars "### Phase 1: Setup\n- [x] top task\n  - [ ] sub task")
      = false := by
  refine ⟨by decide, by decide, by decide⟩

/-- C1 (amended): completion is gated by ALL recorded tasks, sub-tasks
included: `Tools.check_all_tasks_complete` returns true iff every task the
parser records — a checkbox line of any indentation occurring strictly after
some well-formed `### Phase <n>: <name>` header — is checked, and the NeMo
worker's `_all_tasks_complete` returns true iff no line at all strip-starts
with `- [ ]`. -/
theorem claim_C1_completion_gates_all_indents (content : List Char) :
    (check_all_tasks_complete content = true ↔
      ∀ t ∈ collectTasks false (splitLines content) 0, t.is_complete = true) ∧
    (all_tasks_complete content = true ↔
      ∀ l ∈ splitLines content, leadsWith (chars "- [ ]") (pyStrip l) = false) := by
  refine ⟨check_all_iff_collect content, ?_⟩
  simp [all_tasks_complete, List.all_eq_true]

/-- C9: checkbox lines that precede every well-formed phase header (the first
`k` lines hold no such header and the lines from `k` on hold no unchecked
checkbox) are recorded in no phase: every recorded task is complete,
`next_task` is `None`, and `check_all_tasks_complete` returns `True` even
though the document may contain unchecked `- [ ]` lines. -/
theorem claim_C9_preheader_tasks_dropped (content : List Char) (k : Nat)
    (h1 : ∀ l ∈ (splitLines content).take k, isGoodHeader l = false)
    (h2 : ∀ l ∈ (splitLines content).drop k, uncheckedMatch l = false) :
    PhasesAllComplete (parse_checklist content).1 ∧
    (parse_checklist content).2 = none ∧
    check_all_tasks_complete content = true := by
  have hcol := collect_complete_of_header_split k (splitLines content) 0 h1 h2
  have hall : check_all_tasks_complete content = true :=
    (check_all_iff_collect content).mpr hcol
  have hph : PhasesAllComplete (parse_checklist content).1 := by
    have hx := (check_all_iff_collect content).mpr hcol
    simp only [check_all_tasks_complete, List.all_eq_true] at hx
    intro p hp t ht
    have := hx p hp
    simp only [List.all_eq_true] at this
    exact this t ht
  exact ⟨hph, findNext_eq_none_of_allComplete _ hph, hall⟩

/-- C9 witness: a document whose single unchecked task precedes its only
phase header parses to an empty-task phase, no next task, and a complete
checklist. -/
theorem claim_C9_preheader_tasks_dropped_witness :
    uncheckedMatch (chars "- [ ] orphan") = true ∧
    (PhasesAllComplete (parse_checklist (chars "- [ ] orphan\n### Phase 1: X")).1 ∧
      (parse_checklist (chars "- [ ] orphan\n### Phase 1: X")).2 = none ∧
      check_all_tasks_complete (chars "- [ ] orphan\n### Phase 1: X") = true) :=
  ⟨by decide,
    claim_C9_preheader_tasks_dropped (chars "- [ ] orphan\n### Phase 1: X") 1
      (by decide) (by decide)⟩

/-- C5 (counterexample): `update_checklist` is not idempotent for every
document and argument triple.  For `Tools.update_checklist`, a task
description that itself contains `- [ ]` makes the second identical call
check a second box on the same line; for `RalphTools.update_checklist`, a
description that is a prefix of a later task makes the second identical call
mark that later task and insert a second proof line. -/
theorem claim_C5_counterexample :
    applyUpdate (applyUpdate (chars "- [ ] a - [ ] b") (chars "a - [ ] b") true none none)
        (chars "a - [ ] b") true none none ≠
      applyUpdate (chars "- [ ] a - [ ] b") (chars "a - [ ] b") true none none ∧
    ralphApplyUpdate
        (ralphApplyUpdate (chars "- [ ] Add tests\n- [ ] Add tests to parser")
          (chars "Add tests") (chars "ok") none)
        (chars "Add tests") (chars "ok") none ≠
      ralphApplyUpdate (chars "- [ ] Add tests\n- [ ] Add tests to parser")
        (chars "Add tests") (chars "ok") none := by
  refine ⟨by decide, by decide⟩

/-- `split("\n")` never returns an empty list. -/
theorem splitLines_ne_nil (s : List Char) : splitLines s ≠ [] := by
  cases s with
  | nil => simp [splitLines]
  | cons c s' =>
    rw [splitLines]
    by_cases hc : c = '\n'
    · simp [hc]
    · rw [if_neg hc]
      rcases h : splitLines s' with _ | ⟨l, ls⟩ <;> simp

/-- No line produced by `split("\n")` contains a newline. -/
theorem splitLines_no_newline :
    ∀ (s : List Char), ∀ l ∈ splitLines s, '\n' ∉ l := by
  intro s
  induction s with
  | nil => intro l hl; simp [splitLines] at hl; simp [hl]
  | cons c s' ih =>
    intro l hl
    rw [splitLines] at hl
    by_cases hc : c = '\n'
    · rw [if_pos hc] at hl
      rcases List.mem_cons.mp hl with rfl | h'
      · simp
      · exact ih l h'
    · rw [if_neg hc] at hl
      rcases h : splitLines s' with _ | ⟨m, ms⟩
      · exact absurd h (splitLines_ne_nil s')
      · rw [h] at hl
        rcases List.mem_cons.mp hl with rfl | h'
        · intro hmem
          rcases List.mem_cons.mp hmem with rfl | h''
          · exact hc rfl
          · exact ih m (by simp [h]) h''
        · exact ih l (by simp [h, h'])

/-- A newline-free string splits to itself. -/
theorem splitLines_of_no_newline (l : List Char) (h : '\n' ∉ l) :
    splitLines l = [l] := by
  induction l with
  | nil => rfl
  | cons c l' ih =>
    rw [splitLines, if_neg (by simp at h; exact Ne.symm h.1),
      ih (by simp at h; exact h.2)]

/-- Splitting after a newline-free first line peels it off. -/
theorem splitLines_append_newline (l t : List Char) (h : '\n' ∉ l) :
    splitLines (l ++ '\n' :: t) = l :: splitLines t := by
  induction l with
  | nil => simp [splitLines]
  | cons c l' ih =>
    rw [List.cons_append, splitLines, if_neg (by simp at h; exact Ne.symm h.1),
      ih (by simp at h; exact h.2)]

/-- `split` is a retraction of `join` on nonempty newline-free line lists. -/
theorem splitLines_joinLines :
    ∀ ls : List (List Char), ls ≠ [] → (∀ l ∈ ls, '\n' ∉ l) →
      splitLines (joinLines ls) = ls := by
  intro ls
  induction ls with
  | nil => intro h; exact absurd rfl h
  | cons l ls' ih =>
    intro _ h
    cases ls' with
    | nil => exact splitLines_of_no_newline l (h l (by simp))
    | cons m ms =>
      rw [joinLines, splitLines_append_newline l _ (h l (by simp))]
      rw [ih (List.cons_ne_nil m ms) (fun x hx => h x (by simp [hx]))]
      simp

/-- The empty pattern occurs everywhere. -/
theorem containsSub_nil_pattern (s : List Char) : containsSub s [] = true := by
  cases s <;> simp [containsSub, leadsWith]

/-- Prefixes are occurrences. -/
theorem leadsWith_append_self (p b : List Char) : leadsWith p (p ++ b) = true := by
  induction p with
  | nil => rfl
  | cons a p' ih => simp [leadsWith, ih]

/-- An occurrence in the right part survives prepending. -/
theorem containsSub_append_right (a b p : List Char)
    (h : containsSub b p = true) : containsSub (a ++ b) p = true := by
  induction a with
  | nil => simpa using h
  | cons c a' ih => simp [containsSub, ih]

/-- A string starting with the pattern contains it. -/
theorem containsSub_self_append (p b : List Char) : containsSub (p ++ b) p = true := by
  cases p with
  | nil => exact containsSub_nil_pattern b
  | cons a p' =>
    have hlw : leadsWith (a :: p') ((a :: p') ++ b) = true := leadsWith_append_self _ _
    rw [List.cons_append] at hlw ⊢
    simp [containsSub, hlw]

/-- With no occurrence, `replaceFirst` is the identity. -/
theorem replaceFirst_of_not_contains {s old : List Char} (new : List Char)
    (h : containsSub s old = false) : replaceFirst s old new = s := by
  induction s with
  | nil => rfl
  | cons c s' ih =>
    rw [containsSub, Bool.or_eq_false_iff] at h
    rw [replaceFirst, if_neg (by simp [h.1]), ih h.2]

/-- Characters of a replacement come from the string or the new text. -/
theorem mem_replaceFirst {s old new : List Char} {c : Char}
    (h : c ∈ replaceFirst s old new) : c ∈ s ∨ c ∈ new := by
  induction s with
  | nil => simp [replaceFirst] at h
  | cons d s' ih =>
    rw [replaceFirst] at h
    by_cases hl : leadsWith old (d :: s') = true
    · rw [if_pos hl] at h
      rcases List.mem_append.mp h with h' | h'
      · exact Or.inr h'
      · exact Or.inl (List.mem_of_mem_drop h')
    · rw [if_neg hl] at h
      rcases List.mem_cons.mp h with rfl | h'
      · exact Or.inl (by simp)
      · rcases ih h' with h'' | h''
        · exact Or.inl (by simp [h''])
        · exact Or.inr h''

/-- Characters of `rstrip` come from the string. -/
theorem mem_pyRstrip {s : List Char} {c : Char} (h : c ∈ pyRstrip s) : c ∈ s := by
  rw [pyRstrip] at h
  have := (List.dropWhile_sublist pySpace (l := s.reverse)).mem (List.mem_reverse.mp h)
  exact List.mem_reverse.mp this

/-- A successful line search splits the document at the first matching line. -/
theorem findLineIdx_decomp {p : List Char → Bool} :
    ∀ {ls : List (List Char)} {i : Nat}, findLineIdx p ls = some i →
      ∃ pre t0 suf, ls = pre ++ t0 :: suf ∧ pre.length = i ∧ p t0 = true ∧
        ∀ l ∈ pre, p l = false := by
  intro ls
  induction ls with
  | nil => intro i h; simp [findLineIdx] at h
  | cons l ls' ih =>
    intro i h
    rw [findLineIdx] at h
    by_cases hp : p l = true
    · rw [if_pos hp] at h
      exact ⟨[], l, ls', by simp, by simpa using h, hp, by simp⟩
    · rw [if_neg hp] at h
      rcases Option.map_eq_some'.mp h with ⟨j, hj, rfl⟩
      obtain ⟨pre, t0, suf, rfl, hlen, ht0, hpre⟩ := ih hj
      refine ⟨l :: pre, t0, suf, by simp, by simp [hlen], ht0, ?_⟩
      intro x hx
      rcases List.mem_cons.mp hx with rfl | hx'
      · simpa using hp
      · exact hpre x hx'

/-- The converse search computation on a split document. -/
theorem findLineIdx_append {p : List Char → Bool} :
    ∀ (pre : List (List Char)) (t0 : List Char) (suf : List (List Char)),
      (∀ l ∈ pre, p l = false) → p t0 = true →
      findLineIdx p (pre ++ t0 :: suf) = some pre.length := by
  intro pre t0 suf hpre ht0
  induction pre with
  | nil => simp [findLineIdx, ht0]
  | cons l pre' ih =>
    rw [List.cons_append, findLineIdx, if_neg (by simp [hpre l (by simp)]),
      ih (fun x hx => hpre x (by simp [hx]))]
    rfl

/-- `list.set` at the split point replaces the split element. -/
theorem set_append_cons (pre : List (List Char)) (t0 : List Char)
    (suf : List (List Char)) (x : List Char) :
    (pre ++ t0 :: suf).set pre.length x = pre ++ x :: suf := by
  induction pre with
  | nil => rfl
  | cons l pre' ih => simp [List.set, ih]

/-- `getD` at the split point reads the split element. -/
theorem getD_append_cons (pre : List (List Char)) (t0 : List Char)
    (suf : List (List Char)) :
    (pre ++ t0 :: suf).getD pre.length [] = t0 := by
  induction pre with
  | nil => rfl
  | cons l pre' ih => simpa using ih

/-- `insertIdx` just past the split point inserts after the split element. -/
theorem insertIdx_append_cons (pre : List (List Char)) (t0 : List Char)
    (suf : List (List Char)) (x : List Char) :
    (pre ++ t0 :: suf).insertIdx (pre.length + 1) x = pre ++ t0 :: x :: suf := by
  induction pre with
  | nil => rfl
  | cons l pre' ih => simpa [List.insertIdx] using ih

/-- `getD` one past the split point reads the head of the suffix. -/
theorem getD_append_cons_succ (pre : List (List Char)) (t0 s1 : List Char)
    (suf : List (List Char)) :
    (pre ++ t0 :: s1 :: suf).getD (pre.length + 1) [] = s1 := by
  have h := getD_append_cons (pre ++ [t0]) s1 suf
  simpa using h

/-- Length of a split document. -/
theorem length_append_cons (pre : List (List Char)) (t0 : List Char)
    (suf : List (List Char)) :
    (pre ++ t0 :: suf).length = pre.length + suf.length + 1 := by
  simp [List.length_append]
  omega

/-- Occurrences survive an extra leading character. -/
theorem containsSub_cons_of (c : Char) {s p : List Char}
    (h : containsSub s p = true) : containsSub (c :: s) p = true := by
  rw [containsSub]
  simp [h]

/-- Unfolding of `updatedTaskLine` with a supplied sha. -/
theorem updatedTaskLine_some (line s : List Char) :
    updatedTaskLine line (some s) =
      if s = [] then replaceFirst line (chars "- [ ]") (chars "- [x]")
      else if containsSub (replaceFirst line (chars "- [ ]") (chars "- [x]"))
          (chars "(commit:") = true then
        replaceFirst line (chars "- [ ]") (chars "- [x]")
      else
        pyRstrip (replaceFirst line (chars "- [ ]") (chars "- [x]")) ++
          chars " (commit: " ++ s ++ chars ")" := rfl

/-- Unfolding of `updatedTaskLine` without a sha. -/
theorem updatedTaskLine_none (line : List Char) :
    updatedTaskLine line none = replaceFirst line (chars "- [ ]") (chars "- [x]") := rfl

/-- After `updatedTaskLine` with a truthy sha the line carries `(commit:`. -/
theorem updatedTaskLine_contains_commit (line s : List Char) (hs : ¬ s = []) :
    containsSub (updatedTaskLine line (some s)) (chars "(commit:") = true := by
  rw [updatedTaskLine_some]
  rw [if_neg hs]
  by_cases hc : containsSub (replaceFirst line (chars "- [ ]") (chars "- [x]"))
      (chars "(commit:") = true
  · rw [if_pos hc]
    exact hc
  · rw [if_neg hc, List.append_assoc, List.append_assoc]
    apply containsSub_append_right
    rw [show chars " (commit: " ++ (s ++ chars ")") =
      ' ' :: (chars "(commit: " ++ (s ++ chars ")")) from rfl]
    apply containsSub_cons_of
    rw [show chars "(commit: " ++ (s ++ chars ")") =
      chars "(commit:" ++ (' ' :: (s ++ chars ")")) from rfl]
    exact containsSub_self_append _ _

/-- A line already checked off is a fixed point of `updatedTaskLine`. -/
theorem updatedTaskLine_fix (t2 : List Char) (sha : Option (List Char))
    (hcb : containsSub t2 (chars "- [ ]") = false)
    (hcm : ∀ s, sha = some s → ¬ s = [] → containsSub t2 (chars "(commit:") = true) :
    updatedTaskLine t2 sha = t2 := by
  cases sha with
  | none => rw [updatedTaskLine_none, replaceFirst_of_not_contains _ hcb]
  | some s =>
    rw [updatedTaskLine_some, replaceFirst_of_not_contains _ hcb]
    by_cases hs : s = []
    · rw [if_pos hs]
    · rw [if_neg hs, if_pos (hcm s rfl hs)]

/-- The proof annotation line contains `Proof:`. -/
theorem proofLineFor_contains (t pfv : List Char) :
    containsSub (proofLineFor t pfv) (chars "Proof:") = true := by
  rw [proofLineFor, List.append_assoc]
  apply containsSub_append_right
  rw [show chars "- Proof: " ++ pfv = '-' :: ' ' :: (chars "Proof: " ++ pfv) from rfl]
  apply containsSub_cons_of
  apply containsSub_cons_of
  rw [show chars "Proof: " ++ pfv = chars "Proof:" ++ (' ' :: pfv) from rfl]
  exact containsSub_self_append _ _

/-- `updatedTaskLine` introduces no newline. -/
theorem updatedTaskLine_no_newline (line : List Char) (sha : Option (List Char))
    (hl : '\n' ∉ line) (hs : ∀ s, sha = some s → '\n' ∉ s) :
    '\n' ∉ updatedTaskLine line sha := by
  have ht1 : '\n' ∉ replaceFirst line (chars "- [ ]") (chars "- [x]") := by
    intro h
    rcases mem_replaceFirst h with h' | h'
    · exact hl h'
    · exact absurd h' (by decide)
  cases sha with
  | none => rw [updatedTaskLine_none]; exact ht1
  | some s =>
    rw [updatedTaskLine_some]
    by_cases hse : s = []
    · rw [if_pos hse]; exact ht1
    · rw [if_neg hse]
      by_cases hc : containsSub (replaceFirst line (chars "- [ ]") (chars "- [x]"))
          (chars "(commit:") = true
      · rw [if_pos hc]; exact ht1
      · rw [if_neg hc]
        intro h
        rcases List.mem_append.mp h with h' | h'
        · rcases List.mem_append.mp h' with h'' | h''
          · rcases List.mem_append.mp h'' with h3 | h3
            · exact ht1 (mem_pyRstrip h3)
            · exact absurd h3 (by decide)
          · exact hs s rfl h''
        · exact absurd h' (by decide)

/-- The proof annotation line contains no newline when the proof text has
none. -/
theorem proofLineFor_no_newline (t pfv : List Char) (hp : '\n' ∉ pfv) :
    '\n' ∉ proofLineFor t pfv := by
  intro h
  rw [proofLineFor] at h
  rcases List.mem_append.mp h with h' | h'
  · rcases List.mem_append.mp h' with h'' | h''
    · have := List.eq_of_mem_replicate h''
      simp at this
    · exact absurd h'' (by decide)
  · exact hp h'

/-- `placeProofLine` at the split point with nothing below inserts the proof
line at the end. -/
theorem placeProofLine_append_nil (pre : List (List Char)) (t0 pl : List Char) :
    placeProofLine (pre ++ [t0]) pre.length pl = pre ++ t0 :: [pl] := by
  rw [placeProofLine, if_neg ?hcond]
  · exact insertIdx_append_cons pre t0 [] pl
  case hcond =>
    rintro ⟨h1, _⟩
    rw [length_append_cons] at h1
    simp at h1

/-- `placeProofLine` at the split point with a line below: overwrite it when
it mentions `Proof:`, otherwise insert above it. -/
theorem placeProofLine_append_cons2 (pre : List (List Char))
    (t0 s1 : List Char) (rest : List (List Char)) (pl : List Char) :
    placeProofLine (pre ++ t0 :: s1 :: rest) pre.length pl =
      if containsSub s1 (chars "Proof:") = true then pre ++ t0 :: pl :: rest
      else pre ++ t0 :: pl :: s1 :: rest := by
  have hget : (pre ++ t0 :: s1 :: rest).getD (pre.length + 1) [] = s1 :=
    getD_append_cons_succ pre t0 s1 rest
  have hlen : pre.length + 1 < (pre ++ t0 :: s1 :: rest).length := by
    rw [length_append_cons, List.length_cons]
    omega
  rw [placeProofLine]
  by_cases hc : containsSub s1 (chars "Proof:") = true
  · rw [if_pos ⟨hlen, by rw [hget]; exact hc⟩, if_pos hc]
    have h := set_append_cons (pre ++ [t0]) s1 rest pl
    rw [List.append_assoc, List.append_assoc, List.singleton_append,
      List.length_append, List.length_singleton] at h
    exact h
  · rw [if_neg ?hnc, if_neg hc]
    · exact insertIdx_append_cons pre t0 (s1 :: rest) pl
    case hnc =>
      rintro ⟨_, h2⟩
      rw [hget] at h2
      exact hc h2

/-- `getElem` form of `getD_append_cons`. -/
theorem getElem_append_cons (pre : List (List Char)) (t0 : List Char)
    (suf : List (List Char)) (h : pre.length < (pre ++ t0 :: suf).length) :
    (pre ++ t0 :: suf)[pre.length] = t0 := by
  have hg := getD_append_cons pre t0 suf
  rwa [List.getD_eq_getElem _ _ h] at hg

/-- One marking call of `Tools.update_checklist` computes `updatedDoc` on the
document split at its first matching line. -/
theorem update_checklist_split (content desc : List Char)
    (pf sha : Option (List Char)) (pre : List (List Char)) (t0 : List Char)
    (suf : List (List Char))
    (hs : splitLines content = pre ++ t0 :: suf)
    (hpre : ∀ l ∈ pre, matchesTaskT desc l = false)
    (ht0 : matchesTaskT desc t0 = true) :
    update_checklist content desc true pf sha =
      some (joinLines (updatedDoc pre t0 suf pf sha)) := by
  have hfind := findLineIdx_append (p := matchesTaskT desc) pre t0 suf hpre ht0
  cases pf with
  | none =>
    simp [update_checklist, updatedDoc, hs, hfind, getD_append_cons, getElem_append_cons, set_append_cons]
  | some p =>
    by_cases hp : p = []
    · simp [update_checklist, updatedDoc, hs, hfind, getD_append_cons, getElem_append_cons,
        set_append_cons, hp]
    · cases suf with
      | nil =>
        simp [update_checklist, updatedDoc, hs, hfind, getD_append_cons, getElem_append_cons,
          set_append_cons, hp, placeProofLine_append_nil]
      | cons s1 rest =>
        simp [update_checklist, updatedDoc, hs, hfind, getD_append_cons, getElem_append_cons,
          set_append_cons, hp, placeProofLine_append_cons2]

/-- C5 (amended): `Tools.update_checklist` with `mark_complete=True` is
idempotent for identical `(description, proof, commit_sha)` whenever the
supplied proof and sha contain no newline and the first matching line, once
checked off (and sha-annotated), still matches the search — it still contains
the description and strip-starts with `- [` — and contains no further
`- [ ]`.  The second identical call then finds the same line, changes nothing
on it, and replaces the proof annotation line with itself rather than
duplicating it. -/
theorem claim_C5_mark_complete_idempotent (content desc : List Char)
    (pf sha : Option (List Char)) (i : Nat)
    (hpf : ∀ p, pf = some p → '\n' ∉ p)
    (hsha : ∀ s, sha = some s → '\n' ∉ s)
    (hfind : findLineIdx (matchesTaskT desc) (splitLines content) = some i)
    (hmatch : matchesTaskT desc
        (updatedTaskLine ((splitLines content).getD i []) sha) = true)
    (hcb : containsSub (updatedTaskLine ((splitLines content).getD i []) sha)
        (chars "- [ ]") = false) :
    applyUpdate (applyUpdate content desc true pf sha) desc true pf sha =
      applyUpdate content desc true pf sha := by
  obtain ⟨pre, t0, suf, hsplit, hlen, ht0, hpre⟩ := findLineIdx_decomp hfind
  have hgetD : (splitLines content).getD i [] = t0 := by
    rw [hsplit, ← hlen, getD_append_cons]
  rw [hgetD] at hmatch hcb
  have h1 := update_checklist_split content desc pf sha pre t0 suf hsplit hpre ht0
  have happly1 : applyUpdate content desc true pf sha =
      joinLines (updatedDoc pre t0 suf pf sha) := by
    rw [applyUpdate, h1]
    rfl
  have hnlAll : ∀ l ∈ splitLines content, '\n' ∉ l := splitLines_no_newline content
  have hnl_pre : ∀ l ∈ pre, '\n' ∉ l := fun l hl => hnlAll l (by rw [hsplit]; simp [hl])
  have hnl_t0 : '\n' ∉ t0 := hnlAll t0 (by rw [hsplit]; simp)
  have hnl_suf : ∀ l ∈ suf, '\n' ∉ l := fun l hl => hnlAll l (by rw [hsplit]; simp [hl])
  have hnl_t2 : '\n' ∉ updatedTaskLine t0 sha :=
    updatedTaskLine_no_newline t0 sha hnl_t0 hsha
  have hcm : ∀ s, sha = some s → ¬ s = [] →
      containsSub (updatedTaskLine t0 sha) (chars "(commit:") = true := by
    intro s hseq hsne
    rw [hseq]
    exact updatedTaskLine_contains_commit t0 s hsne
  have hfix : updatedTaskLine (updatedTaskLine t0 sha) sha = updatedTaskLine t0 sha :=
    updatedTaskLine_fix _ sha hcb hcm
  have key : ∀ Z : List (List Char),
      updatedDoc pre t0 suf pf sha = pre ++ updatedTaskLine t0 sha :: Z →
      (∀ l ∈ Z, '\n' ∉ l) →
      updatedDoc pre (updatedTaskLine t0 sha) Z pf sha =
        pre ++ updatedTaskLine t0 sha :: Z →
      applyUpdate (joinLines (updatedDoc pre t0 suf pf sha)) desc true pf sha =
        joinLines (updatedDoc pre t0 suf pf sha) := by
    intro Z hdoc hZnl hZfix
    have hnl1 : ∀ l ∈ updatedDoc pre t0 suf pf sha, '\n' ∉ l := by
      rw [hdoc]
      intro l hl
      rcases List.mem_append.mp hl with h' | h'
      · exact hnl_pre l h'
      · rcases List.mem_cons.mp h' with rfl | h''
        · exact hnl_t2
        · exact hZnl l h''
    have hne : updatedDoc pre t0 suf pf sha ≠ [] := by
      rw [hdoc]
      simp
    have hsp2 : splitLines (joinLines (updatedDoc pre t0 suf pf sha)) =
        pre ++ updatedTaskLine t0 sha :: Z := by
      rw [splitLines_joinLines _ hne hnl1, hdoc]
    have h2 := update_checklist_split (joinLines (updatedDoc pre t0 suf pf sha))
      desc pf sha pre (updatedTaskLine t0 sha) Z hsp2 hpre hmatch
    rw [applyUpdate, h2, Option.getD_some, hZfix, ← hdoc]
  rw [happly1]
  rcases pf with _ | p
  · exact key suf (by rw [updatedDoc]) hnl_suf (by rw [updatedDoc, hfix])
  · by_cases hp : p = []
    · refine key suf ?_ hnl_suf ?_
      · rw [updatedDoc]
        simp [hp]
      · rw [updatedDoc]
        simp [hp, hfix]
    · have hplnl : '\n' ∉ proofLineFor (updatedTaskLine t0 sha) p :=
        proofLineFor_no_newline _ p (hpf p rfl)
      have hplc : containsSub (proofLineFor (updatedTaskLine t0 sha) p)
          (chars "Proof:") = true := proofLineFor_contains _ p
      have hZfix2 : ∀ tail : List (List Char),
          updatedDoc pre (updatedTaskLine t0 sha)
              (proofLineFor (updatedTaskLine t0 sha) p :: tail) (some p) sha =
            pre ++ updatedTaskLine t0 sha ::
              proofLineFor (updatedTaskLine t0 sha) p :: tail := by
        intro tail
        rw [updatedDoc]
        simp [hp, hfix, hplc]
      rcases suf with _ | ⟨s1, rest⟩
      · refine key [proofLineFor (updatedTaskLine t0 sha) p] ?_ ?_ (hZfix2 [])
        · rw [updatedDoc]
          simp [hp]
        · intro l hl
          rw [List.mem_singleton.mp hl]
          exact hplnl
      · by_cases hc : containsSub s1 (chars "Proof:") = true
        · refine key (proofLineFor (updatedTaskLine t0 sha) p :: rest) ?_ ?_
            (hZfix2 rest)
          · rw [updatedDoc]
            simp [hp, hc]
          · intro l hl
            rcases List.mem_cons.mp hl with rfl | h'
            · exact hplnl
            · exact hnl_suf l (by simp [h'])
        · refine key (proofLineFor (updatedTaskLine t0 sha) p :: s1 :: rest) ?_ ?_
            (hZfix2 (s1 :: rest))
          · rw [updatedDoc]
            simp [hp, hc]
          · intro l hl
            rcases List.mem_cons.mp hl with rfl | h'
            · exact hplnl
            · exact hnl_suf l h'

/-- C5 witness: marking `write docs` with a proof and sha twice equals doing
it once on a concrete checklist. -/
theorem claim_C5_mark_complete_idempotent_witness :
    applyUpdate (applyUpdate (chars "### Phase 1: A\n- [ ] write docs\n- [ ] other")
        (chars "write docs") true (some (chars "3/3 pass")) (some (chars "abc123")))
        (chars "write docs") true (some (chars "3/3 pass")) (some (chars "abc123")) =
      applyUpdate (chars "### Phase 1: A\n- [ ] write docs\n- [ ] other")
        (chars "write docs") true (some (chars "3/3 pass")) (some (chars "abc123")) :=
  claim_C5_mark_complete_idempotent
    (chars "### Phase 1: A\n- [ ] write docs\n- [ ] other") (chars "write docs")
    (some (chars "3/3 pass")) (some (chars "abc123")) 1
    (by intro p hp; injection hp with h; subst h; decide)
    (by intro s hs; injection hs with h; subst h; decide)
    (by decide) (by decide) (by decide)
